import Mathlib

/-!
# meowhw: aligned allocator, block-size policies and copy loops

A shallow embedding of the six `mycat` programs (`src/target/mycat1.c` ..
`src/target/mycat6.c`).

* Machine words (`size_t`, `uintptr_t`) are natural numbers below `2 ^ 64`;
  every C operation on them is followed by an explicit `% 2 ^ 64`.
* `long` / `ssize_t` values are integers; the programs only compare them and
  add byte counts bounded by one buffer, so they are not reduced.
* Memory is a flat, byte-addressed map; the C library allocator is an oracle
  `malloc : Nat → Nat` (request size ↦ returned address, `0` for `NULL`), and
  the heap records every `malloc` and `free` call.
* `read` and `write` are oracles indexed by the number of calls made so far.
  A `read` moves at most `count` of the bytes that are left in the file into
  the buffer; a `write` sends to the sink the bytes it loads from memory.
* Offsets into the buffer (`buffer + total_bytes_written`) are plain sums.
* Messages written to `stderr` (`perror`, `fprintf`) are not modelled.
-/

namespace Meowhw

/-! ## Machine words -/

/-- The number of values of a 64-bit word (`size_t`, `uintptr_t`). -/
def WORD : Nat := 2 ^ 64

/-- The C value of `sizeof(void*)`. -/
def PTR_SIZE : Nat := 8

/-- The null pointer. -/
def NULL : Nat := 0

/-- Unsigned 64-bit addition `a + b`. -/
def add64 (a b : Nat) : Nat := (a + b) % WORD

/-- Unsigned 64-bit subtraction `a - b`. -/
def sub64 (a b : Nat) : Nat := (a + WORD - b % WORD) % WORD

/-- Unsigned 64-bit complement `~a`. -/
def not64 (a : Nat) : Nat := WORD - 1 - a % WORD

/-- Conversion of a `long` to `size_t`. -/
def toSizeT (x : Int) : Nat := (x % (WORD : Int)).toNat

/-! ## Memory and the C library heap -/

/-- Flat memory together with the log of calls into the C library allocator. -/
structure Heap where
  /-- The byte stored at each address. -/
  mem : Nat → Nat
  /-- The sizes passed to `malloc`, oldest first. -/
  mallocs : List Nat
  /-- The pointers passed to `free`, oldest first. -/
  frees : List Nat

/-- The `i`-th byte (little endian) of the word `v`. -/
def byteOf (v i : Nat) : Nat := v / 256 ^ i % 256

/-- The address of the `i`-th byte of the word stored at `q`. -/
def slotAddr (q i : Nat) : Nat := (q + i) % WORD

/-- Store of the pointer `v` in the `sizeof(void*)` bytes at address `q`: the byte at
`q + i` (modulo `2 ^ 64`) receives the `i`-th byte of `v`, for `i < sizeof(void*)`. -/
def storePtr (mem : Nat → Nat) (q v : Nat) : Nat → Nat := fun p =>
  if sub64 p q < PTR_SIZE then byteOf v (sub64 p q) else mem p

/-- Load of the pointer held in the `sizeof(void*)` bytes at address `q`. -/
def loadPtr (mem : Nat → Nat) (q : Nat) : Nat :=
  ((List.range PTR_SIZE).map (fun i => mem (slotAddr q i) * 256 ^ i)).sum

/-- Store of the bytes `bs` at the addresses `a, a + 1, ...`. -/
def storeBytes (mem : Nat → Nat) (a : Nat) (bs : List Nat) : Nat → Nat := fun p =>
  if a ≤ p ∧ p < a + bs.length then bs.getD (p - a) 0 else mem p

/-- Load of the `n` bytes at the addresses `a, a + 1, ...`. -/
def loadBytes (mem : Nat → Nat) (a n : Nat) : List Nat :=
  (List.range n).map (fun i => mem (a + i))

/-- Store of the single byte `v` at the machine address `p`, reduced modulo `2 ^ 64`. -/
def storeByte (mem : Nat → Nat) (p v : Nat) : Nat → Nat := fun q =>
  if q = p % WORD then v else mem q

/-- The caller's stores `buffer[i] = v` through the pointer `a`, performed in order, each
given as `(i, v)`: the byte `buffer[i]` lives at the machine address `a + i` modulo
`2 ^ 64`. -/
def pokes (mem : Nat → Nat) (a : Nat) : List (Nat × Nat) → Nat → Nat
  | [] => mem
  | (i, v) :: ws => pokes (storeByte mem (a + i) v) a ws

/-- The heap after the caller has performed the stores `ws` through the pointer `a`. -/
def Heap.poke (h : Heap) (a : Nat) (ws : List (Nat × Nat)) : Heap :=
  { h with mem := pokes h.mem a ws }

/-! ## `align_alloc` and `align_free` (mycat3.c, repeated in mycat4.c .. mycat6.c) -/

/-- The value `size + alignment - 1 + sizeof(void*)`, computed in `size_t`. -/
def total_size (size alignment : Nat) : Nat :=
  add64 (sub64 (add64 size alignment) 1) PTR_SIZE

/-- The value `(temp_ptr_val + alignment - 1) & ~(alignment - 1)` for
`temp_ptr_val = original_ptr + sizeof(void*)`. -/
def aligned_addr (original_ptr alignment : Nat) : Nat :=
  let temp_ptr_val := add64 original_ptr PTR_SIZE
  sub64 (add64 temp_ptr_val alignment) 1 &&& not64 (sub64 alignment 1)

/-- The rounded word before masking: `temp_ptr_val + alignment - 1`. -/
def bumped (original_ptr alignment : Nat) : Nat :=
  sub64 (add64 (add64 original_ptr PTR_SIZE) alignment) 1

/-- The function `align_alloc(size, alignment)`: returns the pointer and the new heap. -/
def align_alloc (malloc : Nat → Nat) (h : Heap) (size alignment : Nat) : Nat × Heap :=
  if alignment = 0 ∨ (alignment &&& sub64 alignment 1) ≠ 0 then (NULL, h)
  else if size = 0 then (NULL, h)
  else
    let original_ptr := malloc (total_size size alignment)
    let h1 : Heap := { h with mallocs := h.mallocs ++ [total_size size alignment] }
    if original_ptr = NULL then (NULL, h1)
    else
      let aligned_ptr := aligned_addr original_ptr alignment
      -- ((void**)aligned_ptr)[-1] = original_ptr;
      (aligned_ptr,
        { h1 with mem := storePtr h1.mem (sub64 aligned_ptr PTR_SIZE) original_ptr })

/-- The function `align_free(ptr)`. -/
def align_free (h : Heap) (ptr : Nat) : Heap :=
  if ptr = NULL then h
  else
    let original_ptr := loadPtr h.mem (sub64 ptr PTR_SIZE)
    { h with frees := h.frees ++ [original_ptr] }

/-- A heap with zeroed memory and no allocator calls yet. -/
def Heap.empty : Heap := { mem := fun _ => 0, mallocs := [], frees := [] }

/-! ## Block-size policies -/

/-- The function `get_page_size()` (mycat3.c .. mycat6.c) on the value returned by
`sysconf(_SC_PAGESIZE)`. -/
def get_page_size (sysconf_ret : Int) : Int :=
  if sysconf_ret = -1 then 4096 else sysconf_ret

/-- The function `get_io_blocksize()` of mycat2.c on the value returned by
`sysconf(_SC_PAGESIZE)`. -/
def get_io_blocksize_mycat2 (sysconf_ret : Int) : Int :=
  if sysconf_ret = -1 then 4096 else sysconf_ret

/-- The function `get_io_blocksize(fd, page_size)` of mycat4.c. The argument `fstat_ret`
is `none` when `fstat` returns `-1` and `some b` when it succeeds with `st_blksize = b`. -/
def get_io_blocksize (fstat_ret : Option Int) (page_size : Int) : Int :=
  match fstat_ret with
  | none => page_size
  | some st_blksize =>
    let fs_block_size := st_blksize
    if fs_block_size ≤ 0 then page_size
    else if fs_block_size > 0 ∧ fs_block_size < 1024 * 1024 then fs_block_size
    else page_size

/-- The constant `OPTIMAL_BUFFER_SIZE` of mycat5.c. -/
def OPTIMAL_BUFFER_SIZE_mycat5 : Int := 256 * 1024

/-- The constant `OPTIMAL_BUFFER_SIZE` of mycat6.c (its default value). -/
def OPTIMAL_BUFFER_SIZE_mycat6 : Int := 512 * 1024

/-- The function `get_io_blocksize_task5(page_size)` of mycat5.c. -/
def get_io_blocksize_task5 (page_size : Int) : Int :=
  if OPTIMAL_BUFFER_SIZE_mycat5 < page_size then page_size
  else OPTIMAL_BUFFER_SIZE_mycat5

/-- The function `get_io_blocksize_task6(page_size)` of mycat6.c: the parameter is not
used by the body. -/
def get_io_blocksize_task6 (_page_size : Int) : Int :=
  OPTIMAL_BUFFER_SIZE_mycat6

/-! ## The environment of a run -/

/-- The answer of the sink to one `write` call. -/
inductive WriteEvent where
  /-- The sink takes at most `k` of the offered bytes; `write` returns the number taken. -/
  | accept (k : Nat)
  /-- The call returns `-1` and sets `errno`. -/
  | fail (errno : Int)
  deriving DecidableEq

/-- The value of `EINTR` in `<errno.h>` on Linux. -/
def EINTR : Int := 4

/-- Everything outside the program that a run of `main` depends on. -/
structure Env where
  /-- The argument count. -/
  argc : Int
  /-- The value returned by `open`. -/
  open_ret : Int
  /-- The value returned by `sysconf(_SC_PAGESIZE)`. -/
  sysconf_ret : Int
  /-- The outcome of `fstat`: `none` for `-1`, `some b` for success with `st_blksize = b`. -/
  fstat_ret : Option Int
  /-- The value returned by `posix_fadvise`. -/
  fadvise_ret : Int
  /-- The allocator: request size to returned address, `0` for `NULL`. -/
  malloc : Nat → Nat
  /-- The address of the local array `buffer` of mycat1.c. -/
  stack_buffer : Nat
  /-- The read schedule: what the `i`-th `read` call would return if the request and the
  file allowed it; a negative value makes the call fail. -/
  reads : Nat → Int
  /-- The sink: its answer to the `i`-th `write` call. -/
  writes : Nat → WriteEvent
  /-- The value returned by `close`. -/
  close_ret : Int
  /-- The bytes of the input file. -/
  file : List Nat
  /-- The contents of memory when `main` starts. -/
  mem0 : Nat → Nat

/-- The program points at which a run is observed. -/
inductive PC where
  /-- The start of `main`. -/
  | entry
  /-- The test of the outer `while`: the next action is a `read`. -/
  | loop_head
  /-- The test of the inner `while`, with the current values of `bytes_read` and
  `total_bytes_written`. -/
  | write_head (bytes_read total_bytes_written : Int)
  /-- The program `main` has returned `code`. -/
  | exited (code : Int)
  deriving DecidableEq

/-- The state of a run. -/
structure State where
  /-- The program point. -/
  pc : PC
  /-- The local `page_size`. -/
  page_size : Int
  /-- The local `buffer_size`. -/
  buffer_size : Int
  /-- The local `buffer`. -/
  buffer : Nat
  /-- Memory and allocator log. -/
  heap : Heap
  /-- The bytes of the file not read yet. -/
  src : List Nat
  /-- The bytes received by standard output so far. -/
  out : List Nat
  /-- The number of `read` calls made. -/
  nread : Nat
  /-- The number of `write` calls made. -/
  nwrite : Nat
  /-- The arguments of the `align_free` calls made, oldest first. -/
  align_frees : List Nat
  /-- The number of `close` calls made. -/
  closes : Nat

/-- The state in which `main` starts. -/
def init (env : Env) : State :=
  { pc := .entry, page_size := 0, buffer_size := 0, buffer := NULL,
    heap := { mem := env.mem0, mallocs := [], frees := [] },
    src := env.file, out := [], nread := 0, nwrite := 0, align_frees := [], closes := 0 }

/-- The call `read(fd, buffer, count)`: returns `-1`, or the number `n ≤ count` of bytes
moved from the file to the buffer. -/
def sys_read (env : Env) (s : State) (count : Nat) : Int × State :=
  let r := env.reads s.nread
  if r < 0 then (-1, { s with nread := s.nread + 1 })
  else
    let n := min r.toNat (min count s.src.length)
    ((n : Int),
      { s with
        nread := s.nread + 1
        src := s.src.drop n
        heap := { s.heap with mem := storeBytes s.heap.mem s.buffer (s.src.take n) } })

/-- The call `write(STDOUT_FILENO, p, count)`: returns the result, the value of `errno`
after a failure, and the new state. -/
def sys_write (env : Env) (s : State) (p count : Nat) : Int × Int × State :=
  match env.writes s.nwrite with
  | .accept k =>
    let m := min k count
    ((m : Int), 0,
      { s with nwrite := s.nwrite + 1, out := s.out ++ loadBytes s.heap.mem p m })
  | .fail e => (-1, e, { s with nwrite := s.nwrite + 1 })

/-- The call `align_free(buffer)`. -/
def call_align_free (s : State) : State :=
  { s with heap := align_free s.heap s.buffer, align_frees := s.align_frees ++ [s.buffer] }

/-- The call `free(buffer)`. -/
def call_free (s : State) : State :=
  { s with heap := { s.heap with frees := s.heap.frees ++ [s.buffer] } }

/-- The call `close(fd)`. -/
def call_close (s : State) : State :=
  { s with closes := s.closes + 1 }

/-- The statement `return code;` of `main`. -/
def exit_with (s : State) (code : Int) : State :=
  { s with pc := .exited code }

/-- The final `if (close(fd) == -1) return 1; return 0;` of every `main`. -/
def close_and_return (env : Env) (s : State) : State :=
  if env.close_ret = -1 then exit_with (call_close s) 1 else exit_with (call_close s) 0

/-! ## mycat1.c -/

/-- One step of `main` of mycat1.c. -/
def mycat1_step (env : Env) (s : State) : State :=
  match s.pc with
  | .entry =>
    if env.argc ≠ 2 then exit_with s 1
    else if env.open_ret = -1 then exit_with s 1
    else { s with buffer := env.stack_buffer, pc := .loop_head }
  | .loop_head =>
    -- sizeof(buffer) = 1
    let (bytes_read, s1) := sys_read env s 1
    if bytes_read > 0 then
      let (bytes_written, _, s2) := sys_write env s1 s1.buffer (toSizeT bytes_read)
      if bytes_written = -1 then exit_with (call_close s2) 1
      else if bytes_written ≠ bytes_read then exit_with (call_close s2) 1
      else s2
    else if bytes_read = -1 then exit_with (call_close s1) 1
    else close_and_return env s1
  | .write_head _ _ => s
  | .exited _ => s

/-! ## mycat2.c -/

/-- One step of `main` of mycat2.c. -/
def mycat2_step (env : Env) (s : State) : State :=
  match s.pc with
  | .entry =>
    if env.argc ≠ 2 then exit_with s 1
    else if env.open_ret = -1 then exit_with s 1
    else
      let buffer_size := get_io_blocksize_mycat2 env.sysconf_ret
      if buffer_size ≤ 0 then exit_with (call_close { s with buffer_size := buffer_size }) 1
      else
        let buffer := env.malloc (toSizeT buffer_size)
        let s1 : State :=
          { s with
            buffer_size := buffer_size
            buffer := buffer
            heap := { s.heap with mallocs := s.heap.mallocs ++ [toSizeT buffer_size] } }
        if buffer = NULL then exit_with (call_close s1) 1
        else { s1 with pc := .loop_head }
  | .loop_head =>
    let (bytes_read, s1) := sys_read env s (toSizeT s.buffer_size)
    if bytes_read > 0 then { s1 with pc := .write_head bytes_read 0 }
    else if bytes_read = -1 then exit_with (call_close (call_free s1)) 1
    else close_and_return env (call_free s1)
  | .write_head bytes_read total_bytes_written =>
    if total_bytes_written < bytes_read then
      let (bytes_written_this_call, _, s1) :=
        sys_write env s (s.buffer + total_bytes_written.toNat)
          (toSizeT (bytes_read - total_bytes_written))
      if bytes_written_this_call = -1 then exit_with (call_close (call_free s1)) 1
      else
        { s1 with pc := .write_head bytes_read (total_bytes_written + bytes_written_this_call) }
    else { s with pc := .loop_head }
  | .exited _ => s

/-! ## mycat3.c .. mycat6.c -/

/-- The outer loop test and the code after the loop, shared by mycat3.c .. mycat6.c;
`count` is the third argument of `read`. -/
def aligned_loop_head (env : Env) (s : State) (count : Nat) : State :=
  let (bytes_read, s1) := sys_read env s count
  if bytes_read > 0 then { s1 with pc := .write_head bytes_read 0 }
  else if bytes_read = -1 then exit_with (call_close (call_align_free s1)) 1
  else close_and_return env (call_align_free s1)

/-- The inner loop test and body, shared by mycat3.c .. mycat6.c. -/
def aligned_write_head (env : Env) (s : State) (bytes_read total_bytes_written : Int) : State :=
  if total_bytes_written < bytes_read then
    let (bytes_written_this_call, errno, s1) :=
      sys_write env s (s.buffer + total_bytes_written.toNat)
        (toSizeT (bytes_read - total_bytes_written))
    if bytes_written_this_call = -1 then
      if errno = EINTR then { s1 with pc := .write_head bytes_read total_bytes_written }
      else exit_with (call_close (call_align_free s1)) 1
    else
      { s1 with pc := .write_head bytes_read (total_bytes_written + bytes_written_this_call) }
  else { s with pc := .loop_head }

/-- The allocation of the buffer and the test that follows it, shared by mycat3.c ..
mycat6.c. -/
def alloc_buffer (env : Env) (s : State) (size alignment : Nat) : State :=
  let (buffer, heap) := align_alloc env.malloc s.heap size alignment
  let s1 : State := { s with buffer := buffer, heap := heap }
  if buffer = NULL then exit_with (call_close s1) 1
  else { s1 with pc := .loop_head }

/-- One step of `main` of mycat3.c. -/
def mycat3_step (env : Env) (s : State) : State :=
  match s.pc with
  | .entry =>
    if env.argc ≠ 2 then exit_with s 1
    else if env.open_ret = -1 then exit_with s 1
    else
      let page_size := get_page_size env.sysconf_ret
      if page_size ≤ 0 then exit_with (call_close { s with page_size := page_size }) 1
      else
        alloc_buffer env { s with page_size := page_size } (toSizeT page_size)
          (toSizeT page_size)
  | .loop_head => aligned_loop_head env s (toSizeT s.page_size)
  | .write_head bytes_read total_bytes_written =>
    aligned_write_head env s bytes_read total_bytes_written
  | .exited _ => s

/-- One step of `main` of mycat4.c. -/
def mycat4_step (env : Env) (s : State) : State :=
  match s.pc with
  | .entry =>
    if env.argc ≠ 2 then exit_with s 1
    else if env.open_ret = -1 then exit_with s 1
    else
      let page_size := get_page_size env.sysconf_ret
      let buffer_size := get_io_blocksize env.fstat_ret page_size
      alloc_buffer env { s with page_size := page_size, buffer_size := buffer_size }
        (toSizeT buffer_size) (toSizeT page_size)
  | .loop_head => aligned_loop_head env s (toSizeT s.buffer_size)
  | .write_head bytes_read total_bytes_written =>
    aligned_write_head env s bytes_read total_bytes_written
  | .exited _ => s

/-- One step of `main` of mycat5.c. -/
def mycat5_step (env : Env) (s : State) : State :=
  match s.pc with
  | .entry =>
    if env.argc ≠ 2 then exit_with s 1
    else if env.open_ret = -1 then exit_with s 1
    else
      let page_size := get_page_size env.sysconf_ret
      let buffer_size := get_io_blocksize_task5 page_size
      alloc_buffer env { s with page_size := page_size, buffer_size := buffer_size }
        (toSizeT buffer_size) (toSizeT page_size)
  | .loop_head => aligned_loop_head env s (toSizeT s.buffer_size)
  | .write_head bytes_read total_bytes_written =>
    aligned_write_head env s bytes_read total_bytes_written
  | .exited _ => s

/-- One step of `main` of mycat6.c. The result of `posix_fadvise` only selects a message
on `stderr`. -/
def mycat6_step (env : Env) (s : State) : State :=
  match s.pc with
  | .entry =>
    if env.argc ≠ 2 then exit_with s 1
    else if env.open_ret = -1 then exit_with s 1
    else
      let s0 := if env.fadvise_ret ≠ 0 then s else s
      let page_size := get_page_size env.sysconf_ret
      let buffer_size := get_io_blocksize_task6 page_size
      alloc_buffer env { s0 with page_size := page_size, buffer_size := buffer_size }
        (toSizeT buffer_size) (toSizeT page_size)
  | .loop_head => aligned_loop_head env s (toSizeT s.buffer_size)
  | .write_head bytes_read total_bytes_written =>
    aligned_write_head env s bytes_read total_bytes_written
  | .exited _ => s

/-! ## The six programs as one machine -/

/-- The six programs. -/
inductive Variant where
  | mycat1 | mycat2 | mycat3 | mycat4 | mycat5 | mycat6
  deriving DecidableEq

/-- The programs whose buffer comes from `align_alloc`. -/
def Variant.aligned : Variant → Bool
  | .mycat1 => false
  | .mycat2 => false
  | _ => true

/-- One step of `main` of the given program. -/
def step (v : Variant) (env : Env) (s : State) : State :=
  match v with
  | .mycat1 => mycat1_step env s
  | .mycat2 => mycat2_step env s
  | .mycat3 => mycat3_step env s
  | .mycat4 => mycat4_step env s
  | .mycat5 => mycat5_step env s
  | .mycat6 => mycat6_step env s

/-- The state after `n` steps. -/
def run (v : Variant) (env : Env) : Nat → State → State
  | 0, s => s
  | n + 1, s => run v env n (step v env s)

/-- The third argument of the `read` call of each program. -/
def read_count (v : Variant) (s : State) : Nat :=
  match v with
  | .mycat1 => 1
  | .mycat2 => toSizeT s.buffer_size
  | .mycat3 => toSizeT s.page_size
  | _ => toSizeT s.buffer_size

/-! ## Predicates on runs -/

/-- The sink takes at least one byte at the `i`-th `write` call. -/
def GoodWrite (env : Env) (i : Nat) : Prop := ∃ k, 1 ≤ k ∧ env.writes i = .accept k

/-- The `i`-th `write` call is interrupted by a signal. -/
def Interrupted (env : Env) (i : Nat) : Prop := env.writes i = .fail EINTR

/-- The run from `s` has ended with every byte that was still to be read appended to the
output; the exit code is 0, or 1 when the final `close` fails. -/
def Finished (env : Env) (s t : State) : Prop :=
  t.pc = .exited (if env.close_ret = -1 then 1 else 0) ∧ t.out = s.out ++ s.src ∧ t.src = []

/-- The bookkeeping of `align_free` along a run of mycat3 .. mycat6: no call before `main`
returns, and at the return one call on the buffer exactly when the allocation succeeded. -/
def FreeInv (s : State) : Prop :=
  match s.pc with
  | .entry => s.buffer = NULL ∧ s.align_frees = [] ∧ s.heap.frees = []
  | .loop_head => s.buffer ≠ NULL ∧ s.align_frees = [] ∧ s.heap.frees = []
  | .write_head _ _ => s.buffer ≠ NULL ∧ s.align_frees = [] ∧ s.heap.frees = []
  | .exited _ =>
    (s.buffer = NULL ∧ s.align_frees = [] ∧ s.heap.frees = []) ∨
      (s.buffer ≠ NULL ∧ s.align_frees = [s.buffer] ∧ s.heap.frees.length = 1)

/-! ## Sample runs -/

/-- A sample environment: a five-byte file, a 4096-byte page, a sink taking two bytes per
call. -/
def sampleEnv : Env :=
  { argc := 2, open_ret := 3, sysconf_ret := 4096, fstat_ret := some 512, fadvise_ret := 0,
    malloc := fun _ => 65536, stack_buffer := 1024,
    reads := fun _ => 3, writes := fun _ => .accept 2, close_ret := 0,
    file := [10, 20, 30, 40, 50], mem0 := fun _ => 0 }

/-- A state at the test of the copy loop of mycat3 with a fresh buffer at address 69632. -/
def sampleLoopState : State :=
  { pc := .loop_head, page_size := 4096, buffer_size := 0, buffer := 69632,
    heap := Heap.empty, src := [10, 20, 30, 40, 50], out := [], nread := 0, nwrite := 0,
    align_frees := [], closes := 0 }

/-- The sample environment with a sink that is interrupted at its first two calls. -/
def interruptedEnv : Env :=
  { sampleEnv with writes := fun i => if i < 2 then .fail EINTR else .accept 2 }

/-- The sample environment with a sink that fails at its second call with `EPIPE`. -/
def brokenPipeEnv : Env :=
  { sampleEnv with writes := fun i => if i = 0 then .accept 2 else .fail 32 }

/-! ## Word arithmetic -/

theorem WORD_eq : WORD = 18446744073709551616 := by decide

theorem two_pow_pos_nat (k : Nat) : 0 < 2 ^ k := Nat.pos_pow_of_pos _ (by decide)

theorem two_pow_lt_WORD {k : Nat} (hk : k < 64) : 2 ^ k < WORD := by
  unfold WORD
  exact Nat.pow_lt_pow_right (by decide) hk

theorem sub64_one {a : Nat} (h0 : 0 < a) (h : a < WORD) : sub64 a 1 = a - 1 := by
  unfold sub64
  rw [WORD_eq] at *
  omega

theorem testBit_mask (k i : Nat) (hk : k ≤ 64) :
    (2 ^ 64 - 2 ^ k).testBit i = (decide (i < 64) && !decide (i < k)) := by
  have hpos := two_pow_pos_nat k
  have h1 : 2 ^ k - 1 < 2 ^ 64 := by
    have : 2 ^ k ≤ 2 ^ 64 := Nat.pow_le_pow_right (by decide) hk
    omega
  have h2 := Nat.testBit_two_pow_sub_succ h1 i
  have h3 : 2 ^ 64 - (2 ^ k - 1 + 1) = 2 ^ 64 - 2 ^ k := by omega
  rw [h3] at h2
  rw [h2, Nat.testBit_two_pow_sub_one]

/-- Masking with `~(2 ^ k - 1)` rounds a 64-bit word down to a multiple of `2 ^ k`. -/
theorem land_mask (x k : Nat) (hx : x < 2 ^ 64) (hk : k ≤ 64) :
    x &&& (2 ^ 64 - 2 ^ k) = x - x % 2 ^ k := by
  have hdm : x - x % 2 ^ k = 2 ^ k * (x / 2 ^ k) := by
    have := Nat.div_add_mod x (2 ^ k)
    omega
  rw [hdm]
  apply Nat.eq_of_testBit_eq
  intro i
  rw [Nat.testBit_and, testBit_mask k i hk, Nat.testBit_mul_pow_two]
  by_cases hik : i < k
  · simp [hik, Nat.not_le.mpr hik]
  · have hki : k ≤ i := Nat.le_of_not_lt hik
    have hbit : (x / 2 ^ k).testBit (i - k) = x.testBit i := by
      rw [← Nat.shiftRight_eq_div_pow, Nat.testBit_shiftRight]
      congr 1; omega
    rw [hbit]
    by_cases hi : i < 64
    · simp [hik, hi, hki]
    · have hx0 : x.testBit i = false := by
        apply Nat.testBit_lt_two_pow
        exact Nat.lt_of_lt_of_le hx (Nat.pow_le_pow_right (by decide) (by omega))
      simp [hx0]

/-- The test `n & (n - 1)` is zero exactly on the powers of two (for `n ≠ 0`). -/
theorem pow2_check (n : Nat) (hn : n ≠ 0) : n &&& (n - 1) = 0 ↔ ∃ k, n = 2 ^ k := by
  constructor
  · induction n using Nat.strong_induction_on with
    | _ n ih =>
      intro h
      rcases Nat.even_or_odd n with he | ho
      · obtain ⟨m, hm⟩ := he
        have hm0 : m ≠ 0 := by omega
        have hdiv : (n &&& (n - 1)) / 2 = m &&& (m - 1) := by
          rw [Nat.and_div_two]
          congr 1 <;> omega
        rw [h] at hdiv
        obtain ⟨k, hk⟩ := ih m (by omega) hm0 hdiv.symm
        exact ⟨k + 1, by rw [pow_succ]; omega⟩
      · obtain ⟨m, hm⟩ := ho
        have hdiv : (n &&& (n - 1)) / 2 = m &&& m := by
          rw [Nat.and_div_two]
          congr 1 <;> omega
        rw [h, Nat.and_self] at hdiv
        exact ⟨0, by simp; omega⟩
  · rintro ⟨k, rfl⟩
    rw [Nat.and_pow_two_sub_one_eq_mod]
    exact Nat.mod_self _

/-- The guard of `align_alloc` rejects exactly zero and the non-powers of two. -/
theorem guard_iff (alignment : Nat) (ha : alignment < WORD) :
    (alignment = 0 ∨ (alignment &&& sub64 alignment 1) ≠ 0) ↔
      (alignment = 0 ∨ ¬ ∃ k, alignment = 2 ^ k) := by
  by_cases h0 : alignment = 0
  · simp [h0]
  · rw [sub64_one (Nat.pos_of_ne_zero h0) ha, ← pow2_check alignment h0]

theorem pow_lt_WORD_exp {k : Nat} (h : 2 ^ k < WORD) : k < 64 := by
  by_contra hk
  have : 2 ^ 64 ≤ 2 ^ k := Nat.pow_le_pow_right (by decide) (by omega)
  unfold WORD at h
  omega

theorem bumped_lt (raw al : Nat) : bumped raw al < 2 ^ 64 := by
  unfold bumped sub64
  exact Nat.mod_lt _ (by decide)

/-- On a power of two the address computed by `align_alloc` is the bumped word rounded
down to a multiple of the alignment. -/
theorem aligned_addr_pow (raw k : Nat) (hk : k < 64) :
    aligned_addr raw (2 ^ k) = bumped raw (2 ^ k) - bumped raw (2 ^ k) % 2 ^ k := by
  have hpos := two_pow_pos_nat k
  have hlt := two_pow_lt_WORD hk
  have hmask : not64 (sub64 (2 ^ k) 1) = 2 ^ 64 - 2 ^ k := by
    rw [sub64_one hpos hlt]
    unfold not64
    rw [Nat.mod_eq_of_lt (by omega)]
    unfold WORD at *
    omega
  unfold aligned_addr
  rw [hmask]
  exact land_mask _ k (bumped_lt raw _) (by omega)

theorem aligned_addr_mod (raw k : Nat) (hk : k < 64) : aligned_addr raw (2 ^ k) % 2 ^ k = 0 := by
  rw [aligned_addr_pow raw k hk]
  exact Nat.sub_mod_eq_zero_of_mod_eq (Nat.mod_mod _ _).symm

/-- Without wrap-around the bumped word is `raw + sizeof(void*) + alignment - 1`. -/
theorem bumped_nowrap {raw al : Nat} (hal : 0 < al) (h : raw + PTR_SIZE + al - 1 < WORD) :
    bumped raw al = raw + PTR_SIZE + al - 1 := by
  unfold bumped sub64 add64
  rw [WORD_eq] at *
  unfold PTR_SIZE at *
  omega

/-- Rounding up: without wrap-around the computed address lies in
`[raw + sizeof(void*), raw + sizeof(void*) + alignment - 1]`. -/
theorem aligned_addr_bounds {raw k : Nat} (hk : k < 64)
    (h : raw + PTR_SIZE + 2 ^ k - 1 < WORD) :
    raw + PTR_SIZE ≤ aligned_addr raw (2 ^ k) ∧
      aligned_addr raw (2 ^ k) ≤ raw + PTR_SIZE + (2 ^ k - 1) := by
  have hpos := two_pow_pos_nat k
  rw [aligned_addr_pow raw k hk, bumped_nowrap hpos h]
  have hr := Nat.mod_lt (raw + PTR_SIZE + 2 ^ k - 1) hpos
  omega

/-- When the computation wraps around, a block whose first word lies in the address
space is rounded to the null pointer. -/
theorem aligned_addr_wrap {raw k : Nat} (hk : k < 64) (hraw : raw + PTR_SIZE ≤ WORD)
    (h : WORD ≤ raw + PTR_SIZE + 2 ^ k - 1) : aligned_addr raw (2 ^ k) = 0 := by
  have hpos := two_pow_pos_nat k
  have hlt := two_pow_lt_WORD hk
  have hb : bumped raw (2 ^ k) < 2 ^ k := by
    unfold bumped sub64 add64
    rw [WORD_eq] at *
    unfold PTR_SIZE at *
    omega
  rw [aligned_addr_pow raw k hk, Nat.mod_eq_of_lt hb]
  exact Nat.sub_self _

/-- The guard of `align_alloc` accepts every power of two below `2 ^ 64`. -/
theorem guard_pow (k : Nat) (hk : k < 64) :
    ¬ (2 ^ k = 0 ∨ (2 ^ k &&& sub64 (2 ^ k) 1) ≠ 0) := by
  rw [guard_iff _ (two_pow_lt_WORD hk)]
  have hpos := two_pow_pos_nat k
  rintro (h | h)
  · omega
  · exact h ⟨k, rfl⟩

/-- The result of `align_alloc` on valid arguments when `malloc` succeeds. -/
theorem align_alloc_ok (malloc : Nat → Nat) (h : Heap) (size k : Nat) (hs : 0 < size)
    (hk : k < 64) (hm : malloc (total_size size (2 ^ k)) ≠ NULL) :
    (align_alloc malloc h size (2 ^ k)).1 =
      aligned_addr (malloc (total_size size (2 ^ k))) (2 ^ k) := by
  unfold align_alloc
  rw [if_neg (guard_pow k hk), if_neg (by omega), if_neg hm]

/-! ## Pointer stores and loads -/

theorem sub64_slotAddr (q i : Nat) (hi : i < PTR_SIZE) : sub64 (slotAddr q i) q = i := by
  unfold sub64 slotAddr
  rw [WORD_eq]
  unfold PTR_SIZE at hi
  omega

theorem storePtr_slot (mem : Nat → Nat) (q v i : Nat) (hi : i < PTR_SIZE) :
    storePtr mem q v (slotAddr q i) = byteOf v i := by
  unfold storePtr
  rw [sub64_slotAddr q i hi, if_pos hi]

theorem loadPtr_congr (mem1 mem2 : Nat → Nat) (q : Nat)
    (h : ∀ i, i < PTR_SIZE → mem1 (slotAddr q i) = mem2 (slotAddr q i)) :
    loadPtr mem1 q = loadPtr mem2 q := by
  unfold loadPtr
  congr 1
  apply List.map_congr_left
  intro i hi
  rw [h i (List.mem_range.mp hi)]

theorem bytes_sum (v : Nat) (hv : v < WORD) :
    ((List.range PTR_SIZE).map (fun i => byteOf v i * 256 ^ i)).sum = v := by
  rw [WORD_eq] at hv
  have h8 : List.range PTR_SIZE = [0, 1, 2, 3, 4, 5, 6, 7] := by decide
  rw [h8]
  simp only [byteOf, List.map_cons, List.map_nil, List.sum_cons, List.sum_nil]
  norm_num
  omega

/-- A pointer that was stored is the pointer that is loaded. -/
theorem loadPtr_storePtr (mem : Nat → Nat) (q v : Nat) (hv : v < WORD) :
    loadPtr (storePtr mem q v) q = v := by
  have h : loadPtr (storePtr mem q v) q =
      ((List.range PTR_SIZE).map (fun i => byteOf v i * 256 ^ i)).sum := by
    unfold loadPtr
    congr 1
    apply List.map_congr_left
    intro i hi
    rw [storePtr_slot mem q v i (List.mem_range.mp hi)]
  rw [h, bytes_sum v hv]

/-- The caller's stores leave every address that none of them hits unchanged. -/
theorem pokes_outside (ws : List (Nat × Nat)) (mem : Nat → Nat) (a q : Nat)
    (h : ∀ iv ∈ ws, (a + iv.1) % WORD ≠ q) : pokes mem a ws q = mem q := by
  induction ws generalizing mem with
  | nil => rfl
  | cons iv ws ih =>
    obtain ⟨i, v⟩ := iv
    have hp : (a + i) % WORD ≠ q := h (i, v) (List.mem_cons_self _ _)
    have hrest : ∀ iv ∈ ws, (a + iv.1) % WORD ≠ q :=
      fun iv hiv => h iv (List.mem_cons_of_mem _ hiv)
    show pokes (storeByte mem (a + i) v) a ws q = mem q
    rw [ih (storeByte mem (a + i) v) hrest]
    unfold storeByte
    rw [if_neg (fun hq => hp hq.symm)]

/-! ## The allocator -/

theorem snd_frees (a : Nat) (m : Nat → Nat) (ml fr : List Nat) :
    ((a, ({ mem := m, mallocs := ml, frees := fr } : Heap)).2).frees = fr := rfl

theorem snd_mallocs (a : Nat) (m : Nat → Nat) (ml fr : List Nat) :
    ((a, ({ mem := m, mallocs := ml, frees := fr } : Heap)).2).mallocs = ml := rfl

/-- The unfolding of `align_alloc` on arguments that pass both guards. -/
theorem align_alloc_valid (malloc : Nat → Nat) (h : Heap) (size alignment : Nat)
    (hg : ¬ (alignment = 0 ∨ (alignment &&& sub64 alignment 1) ≠ 0)) (hs : size ≠ 0) :
    align_alloc malloc h size alignment =
      if malloc (total_size size alignment) = NULL then
        (NULL, { h with mallocs := h.mallocs ++ [total_size size alignment] })
      else
        (aligned_addr (malloc (total_size size alignment)) alignment,
          { mem := storePtr h.mem
              (sub64 (aligned_addr (malloc (total_size size alignment)) alignment) PTR_SIZE)
              (malloc (total_size size alignment)),
            mallocs := h.mallocs ++ [total_size size alignment],
            frees := h.frees }) := by
  unfold align_alloc
  rw [if_neg hg, if_neg hs]

/-- A non-null result of `align_alloc` means that both guards passed and `malloc`
succeeded. -/
theorem align_alloc_ne_null (malloc : Nat → Nat) (h : Heap) (size alignment : Nat)
    (hok : (align_alloc malloc h size alignment).1 ≠ NULL) :
    ¬ (alignment = 0 ∨ (alignment &&& sub64 alignment 1) ≠ 0) ∧ size ≠ 0 ∧
      malloc (total_size size alignment) ≠ NULL := by
  unfold align_alloc at hok
  by_cases hg : alignment = 0 ∨ (alignment &&& sub64 alignment 1) ≠ 0
  · rw [if_pos hg] at hok
    exact absurd rfl hok
  · rw [if_neg hg] at hok
    by_cases hs : size = 0
    · rw [if_pos hs] at hok
      exact absurd rfl hok
    · rw [if_neg hs] at hok
      by_cases hm : malloc (total_size size alignment) = NULL
      · simp only [hm, if_true] at hok
        exact absurd rfl hok
      · exact ⟨hg, hs, hm⟩

/-- An accepted alignment below `2 ^ 64` is `2 ^ k` with `k < 64`. -/
theorem guard_exponent (alignment : Nat) (ha : alignment < WORD)
    (hg : ¬ (alignment = 0 ∨ (alignment &&& sub64 alignment 1) ≠ 0)) :
    ∃ k, k < 64 ∧ alignment = 2 ^ k := by
  rw [guard_iff alignment ha] at hg
  have hk : ∃ k, alignment = 2 ^ k := by
    by_contra hcon
    exact hg (Or.inr hcon)
  obtain ⟨k, rfl⟩ := hk
  exact ⟨k, pow_lt_WORD_exp ha, rfl⟩

/-- When the request `size + alignment - 1 + sizeof(void*)` does not overflow and the
block handed out by `malloc` lies in the address space, the back-pointer slot and the
caller's region lie inside the block. -/
theorem align_alloc_in_block (malloc : Nat → Nat) (h : Heap) (size k : Nat) (hs : 0 < size)
    (hk : k < 64) (hfit : size + 2 ^ k - 1 + PTR_SIZE < WORD)
    (hm : malloc (total_size size (2 ^ k)) ≠ NULL)
    (hblock : malloc (total_size size (2 ^ k)) + total_size size (2 ^ k) ≤ WORD) :
    malloc (total_size size (2 ^ k)) ≤ (align_alloc malloc h size (2 ^ k)).1 - PTR_SIZE ∧
      PTR_SIZE ≤ (align_alloc malloc h size (2 ^ k)).1 ∧
      (align_alloc malloc h size (2 ^ k)).1 + size ≤
        malloc (total_size size (2 ^ k)) + total_size size (2 ^ k) := by
  have hpos := two_pow_pos_nat k
  have htot : total_size size (2 ^ k) = size + 2 ^ k - 1 + PTR_SIZE := by
    unfold total_size sub64 add64
    rw [WORD_eq] at *
    unfold PTR_SIZE at *
    omega
  rw [align_alloc_ok malloc h size k hs hk hm]
  rw [htot] at hblock ⊢
  have hb := @aligned_addr_bounds (malloc (size + 2 ^ k - 1 + PTR_SIZE)) k hk (by omega)
  rw [htot] at hm
  unfold PTR_SIZE at *
  omega

/-- C1: for every size > 0, every power-of-two alignment `2 ^ k` below `2 ^ 64` and every
non-null address returned by `malloc`, the address returned by `align_alloc` is a multiple
of the alignment (all address arithmetic is modulo `2 ^ 64`). -/
theorem align_alloc_aligned (malloc : Nat → Nat) (h : Heap) (size k : Nat) (hs : 0 < size)
    (hk : k < 64) (hm : malloc (total_size size (2 ^ k)) ≠ NULL) :
    (align_alloc malloc h size (2 ^ k)).1 % 2 ^ k = 0 := by
  rw [align_alloc_ok malloc h size k hs hk hm]
  exact aligned_addr_mod _ k hk

theorem align_alloc_aligned_witness :
    (0 < 100 ∧ 6 < 64 ∧ (fun _ : Nat => 4096) (total_size 100 (2 ^ 6)) ≠ NULL) ∧
      (align_alloc (fun _ => 4096) Heap.empty 100 (2 ^ 6)).1 % 2 ^ 6 = 0 :=
  ⟨by decide,
    align_alloc_aligned (fun _ => 4096) Heap.empty 100 6 (by decide) (by decide) (by decide)⟩

/-- C10: for every power-of-two alignment `2 ^ k` and every raw address `raw` returned by
`malloc` for which `raw + sizeof(void*) + alignment - 1` does not wrap, the address
computed by `align_alloc` is the least multiple of the alignment that is at least
`raw + sizeof(void*)`; it exceeds `raw + sizeof(void*)` by at most `alignment - 1`. -/
theorem align_alloc_least_multiple (malloc : Nat → Nat) (h : Heap) (size k raw : Nat)
    (hs : 0 < size) (hk : k < 64) (hraw : malloc (total_size size (2 ^ k)) = raw)
    (h0 : raw ≠ NULL) (hw : raw + PTR_SIZE + 2 ^ k - 1 < WORD) :
    (align_alloc malloc h size (2 ^ k)).1 % 2 ^ k = 0 ∧
      raw + PTR_SIZE ≤ (align_alloc malloc h size (2 ^ k)).1 ∧
      (align_alloc malloc h size (2 ^ k)).1 - (raw + PTR_SIZE) ≤ 2 ^ k - 1 ∧
      ∀ m, m % 2 ^ k = 0 → raw + PTR_SIZE ≤ m → (align_alloc malloc h size (2 ^ k)).1 ≤ m := by
  have hpos := two_pow_pos_nat k
  rw [align_alloc_ok malloc h size k hs hk (by rw [hraw]; exact h0), hraw]
  have hmod := aligned_addr_mod raw k hk
  obtain ⟨hlo, hhi⟩ := aligned_addr_bounds hk hw
  refine ⟨hmod, hlo, by omega, ?_⟩
  intro m hm hle
  by_contra hlt
  have hdvd : 2 ^ k ∣ aligned_addr raw (2 ^ k) - m :=
    Nat.dvd_sub' (Nat.dvd_of_mod_eq_zero hmod) (Nat.dvd_of_mod_eq_zero hm)
  have hge : 2 ^ k ≤ aligned_addr raw (2 ^ k) - m := Nat.le_of_dvd (by omega) hdvd
  omega

theorem align_alloc_least_multiple_witness :
    (0 < 100 ∧ 6 < 64 ∧ (fun _ : Nat => 4100) (total_size 100 (2 ^ 6)) = 4100 ∧
        4100 ≠ NULL ∧ 4100 + PTR_SIZE + 2 ^ 6 - 1 < WORD) ∧
      ((align_alloc (fun _ => 4100) Heap.empty 100 (2 ^ 6)).1 % 2 ^ 6 = 0 ∧
        4100 + PTR_SIZE ≤ (align_alloc (fun _ => 4100) Heap.empty 100 (2 ^ 6)).1 ∧
        (align_alloc (fun _ => 4100) Heap.empty 100 (2 ^ 6)).1 - (4100 + PTR_SIZE) ≤ 2 ^ 6 - 1 ∧
        ∀ m, m % 2 ^ 6 = 0 → 4100 + PTR_SIZE ≤ m →
          (align_alloc (fun _ => 4100) Heap.empty 100 (2 ^ 6)).1 ≤ m) :=
  ⟨by decide,
    align_alloc_least_multiple (fun _ => 4100) Heap.empty 100 6 4100 (by decide) (by decide)
      rfl (by decide) (by decide)⟩

/-- C2 (evaluation at a failing input): for `size = 2 ^ 64 - 1` and `alignment = 1` the
request `size + alignment - 1 + sizeof(void*)` wraps to 7, `malloc(7)` hands out the block
`[4096, 4103)`, and `align_alloc` returns 4104: neither the back-pointer slot
`[4096, 4104)` nor the caller's region `[4104, 4104 + size)` lies inside the block. -/
theorem align_alloc_overflow_leaves_block :
    total_size (2 ^ 64 - 1) 1 = 7 ∧
      (align_alloc (fun _ => 4096) Heap.empty (2 ^ 64 - 1) 1).2.mallocs = [7] ∧
      (align_alloc (fun _ => 4096) Heap.empty (2 ^ 64 - 1) 1).1 = 4104 ∧
      ¬ (4104 ≤ 4096 + total_size (2 ^ 64 - 1) 1) ∧
      ¬ (4104 + (2 ^ 64 - 1) ≤ 4096 + total_size (2 ^ 64 - 1) 1) := by
  decide

/-- Every address in the lower half of the address space is rounded without wrap-around,
whatever the alignment. -/
theorem nowrap_of_low_address {raw k : Nat} (hk : k < 64) (hraw : raw + PTR_SIZE ≤ 2 ^ 63) :
    raw + PTR_SIZE + 2 ^ k - 1 < WORD := by
  have hpos := two_pow_pos_nat k
  have hle : 2 ^ k ≤ 2 ^ 63 := Nat.pow_le_pow_right (by decide) (by omega)
  rw [WORD_eq]
  have h63 : (2 : Nat) ^ 63 = 9223372036854775808 := by decide
  rw [h63] at hle hraw
  omega

/-- C9: `align_alloc(size, alignment)` returns `NULL` when the alignment is zero, when it is
not a power of two, when the size is zero and when `malloc` returns `NULL`, the same `NULL`
in all four cases; in the three invalid-argument cases the heap is untouched (`malloc` is
not called), and on valid arguments `malloc` is called exactly once. Conversely a `NULL`
result means one of the four cases, for every `malloc` result whose rounding
`raw + sizeof(void*) + alignment - 1` does not wrap; when it wraps, the store through
`aligned_ptr[-1]` is aimed at the last bytes of the address space before anything is
returned. -/
theorem align_alloc_null_iff (malloc : Nat → Nat) (h : Heap) (size alignment : Nat)
    (ha : alignment < WORD) :
    ((alignment = 0 ∨ (¬ ∃ k, alignment = 2 ^ k) ∨ size = 0 ∨
          malloc (total_size size alignment) = NULL) →
        (align_alloc malloc h size alignment).1 = NULL) ∧
      ((alignment = 0 ∨ (¬ ∃ k, alignment = 2 ^ k) ∨ size = 0) →
        align_alloc malloc h size alignment = (NULL, h)) ∧
      (¬ (alignment = 0 ∨ (¬ ∃ k, alignment = 2 ^ k) ∨ size = 0) →
        (align_alloc malloc h size alignment).2.mallocs =
          h.mallocs ++ [total_size size alignment]) ∧
      ((malloc (total_size size alignment) ≠ NULL →
          malloc (total_size size alignment) + PTR_SIZE + alignment - 1 < WORD) →
        (align_alloc malloc h size alignment).1 = NULL →
        (alignment = 0 ∨ (¬ ∃ k, alignment = 2 ^ k) ∨ size = 0 ∨
          malloc (total_size size alignment) = NULL)) := by
  have hinv : (alignment = 0 ∨ (¬ ∃ k, alignment = 2 ^ k) ∨ size = 0) →
      align_alloc malloc h size alignment = (NULL, h) := by
    intro hbad
    unfold align_alloc
    by_cases hg : alignment = 0 ∨ (alignment &&& sub64 alignment 1) ≠ 0
    · rw [if_pos hg]
    · rw [if_neg hg]
      have hsz : size = 0 := by
        rcases hbad with hb | hb | hb
        · exact absurd (Or.inl hb) hg
        · exact absurd ((guard_iff alignment ha).mpr (Or.inr hb)) hg
        · exact hb
      rw [if_pos hsz]
  have hvalid : ¬ (alignment = 0 ∨ (¬ ∃ k, alignment = 2 ^ k) ∨ size = 0) →
      ¬ (alignment = 0 ∨ (alignment &&& sub64 alignment 1) ≠ 0) ∧ size ≠ 0 := by
    intro hgood
    simp only [not_or] at hgood
    refine ⟨?_, hgood.2.2⟩
    rw [guard_iff alignment ha]
    simp only [not_or]
    exact ⟨hgood.1, hgood.2.1⟩
  refine ⟨?_, hinv, ?_, ?_⟩
  · rintro (hb | hb | hb | hb)
    · rw [hinv (Or.inl hb)]
    · rw [hinv (Or.inr (Or.inl hb))]
    · rw [hinv (Or.inr (Or.inr hb))]
    · by_cases hbad : alignment = 0 ∨ (¬ ∃ k, alignment = 2 ^ k) ∨ size = 0
      · rw [hinv hbad]
      · obtain ⟨hg, hs⟩ := hvalid hbad
        rw [align_alloc_valid malloc h size alignment hg hs, if_pos hb]
  · intro hgood
    obtain ⟨hg, hs⟩ := hvalid hgood
    rewrite [align_alloc_valid malloc h size alignment hg hs]
    by_cases hm : malloc (total_size size alignment) = NULL
    · rewrite [if_pos hm]
      exact snd_mallocs _ _ _ _
    · rewrite [if_neg hm]
      exact snd_mallocs _ _ _ _
  · intro hw hnull
    by_contra hcon
    simp only [not_or, not_not] at hcon
    obtain ⟨_, ⟨k, hk⟩, hs, hm⟩ := hcon
    subst hk
    have hk64 : k < 64 := pow_lt_WORD_exp ha
    rw [align_alloc_ok malloc h size k (Nat.pos_of_ne_zero hs) hk64 hm] at hnull
    have hb := (aligned_addr_bounds hk64 (hw hm)).1
    unfold NULL PTR_SIZE at *
    omega

theorem align_alloc_null_iff_witness :
    (64 : Nat) < WORD ∧ (48 : Nat) < WORD ∧
      -- valid arguments, `malloc` fails: `NULL` after one call to `malloc`
      (align_alloc (fun _ => 0) Heap.empty 100 64).1 = NULL ∧
      (align_alloc (fun _ => 0) Heap.empty 100 64).2.mallocs =
        Heap.empty.mallocs ++ [total_size 100 64] ∧
      -- an alignment that is not a power of two: `NULL`, heap untouched
      align_alloc (fun _ => 4096) Heap.empty 100 48 = (NULL, Heap.empty) ∧
      -- valid arguments, `malloc` succeeds without wrap-around: not `NULL`
      (align_alloc (fun _ => 4096) Heap.empty 100 64).1 ≠ NULL :=
  ⟨by decide, by decide,
    (align_alloc_null_iff (fun _ => 0) Heap.empty 100 64 (by decide)).1
      (Or.inr (Or.inr (Or.inr rfl))),
    (align_alloc_null_iff (fun _ => 0) Heap.empty 100 64 (by decide)).2.2.1
      (fun hbad => hbad.elim (fun h0 => absurd h0 (by decide))
        (fun h1 => h1.elim (fun hk => hk ⟨6, by decide⟩) (fun hs => absurd hs (by decide)))),
    (align_alloc_null_iff (fun _ => 4096) Heap.empty 100 48 (by decide)).2.1
      (Or.inr (Or.inl (fun ⟨k, hk⟩ => by
        have h5 : k ≤ 5 ∨ 6 ≤ k := by omega
        rcases h5 with h5 | h5
        · interval_cases k <;> omega
        · have h64 : 2 ^ 6 ≤ 2 ^ k := Nat.pow_le_pow_right (by decide) h5
          omega))),
    fun hnull =>
      ((align_alloc_null_iff (fun _ => 4096) Heap.empty 100 64 (by decide)).2.2.2
          (fun _ => by decide) hnull).elim
        (fun h0 => absurd h0 (by decide))
        (fun h1 => h1.elim (fun hk => hk ⟨6, by decide⟩)
          (fun h2 => h2.elim (fun hs => absurd hs (by decide))
            (fun hm => absurd hm (by decide))))⟩

/-- After a successful `align_alloc(size, alignment)` that obtained `raw` from `malloc` (the
word at `raw` lying in the address space) and returned `a` with `a + size ≤ 2 ^ 64`, a later
`align_free(a)` calls `free` exactly once, with exactly `raw`, whatever the caller has
stored meanwhile in `buffer[0 .. size)`; and `align_free(NULL)` does not call `free`. -/
theorem align_free_releases_raw_in_range (malloc : Nat → Nat) (h : Heap)
    (size alignment : Nat) (ws : List (Nat × Nat)) (ha : alignment < WORD)
    (hok : (align_alloc malloc h size alignment).1 ≠ NULL)
    (hraw : malloc (total_size size alignment) + PTR_SIZE ≤ WORD)
    (hfit : (align_alloc malloc h size alignment).1 + size ≤ WORD)
    (hws : ∀ iv ∈ ws, iv.1 < size) :
    (align_free ((align_alloc malloc h size alignment).2.poke
          (align_alloc malloc h size alignment).1 ws)
        (align_alloc malloc h size alignment).1).frees =
        h.frees ++ [malloc (total_size size alignment)] ∧
      ∀ h2 : Heap, (align_free h2 NULL).frees = h2.frees := by
  refine ⟨?_, fun h2 => by unfold align_free; rw [if_pos rfl]⟩
  obtain ⟨hg, hs, hm⟩ := align_alloc_ne_null malloc h size alignment hok
  obtain ⟨k, hk, rfl⟩ := guard_exponent alignment ha hg
  have hpos := two_pow_pos_nat k
  rw [align_alloc_valid malloc h size (2 ^ k) hg hs, if_neg hm] at hok hfit ⊢
  simp only at hok hfit ⊢
  -- the rounding did not wrap, since it did not produce the null pointer
  have hnw : malloc (total_size size (2 ^ k)) + PTR_SIZE + 2 ^ k - 1 < WORD := by
    by_contra hcon
    exact hok (aligned_addr_wrap hk hraw (by omega))
  obtain ⟨hlo, hhi⟩ := aligned_addr_bounds hk hnw
  have halt : aligned_addr (malloc (total_size size (2 ^ k))) (2 ^ k) < WORD := by
    unfold PTR_SIZE at *
    omega
  have hslot : ∀ i, i < PTR_SIZE →
      slotAddr (sub64 (aligned_addr (malloc (total_size size (2 ^ k))) (2 ^ k)) PTR_SIZE) i <
        aligned_addr (malloc (total_size size (2 ^ k))) (2 ^ k) := by
    intro i hi
    unfold slotAddr sub64
    rw [WORD_eq] at *
    unfold PTR_SIZE at *
    omega
  have hkeep : loadPtr (pokes (storePtr h.mem
        (sub64 (aligned_addr (malloc (total_size size (2 ^ k))) (2 ^ k)) PTR_SIZE)
        (malloc (total_size size (2 ^ k))))
        (aligned_addr (malloc (total_size size (2 ^ k))) (2 ^ k)) ws)
        (sub64 (aligned_addr (malloc (total_size size (2 ^ k))) (2 ^ k)) PTR_SIZE) =
      malloc (total_size size (2 ^ k)) := by
    have hv : malloc (total_size size (2 ^ k)) < WORD := by
      unfold PTR_SIZE at hraw
      omega
    refine Eq.trans (loadPtr_congr _ _ _ ?_) (loadPtr_storePtr h.mem _ _ hv)
    intro i hi
    apply pokes_outside
    intro iv hiv
    have hidx := hws iv hiv
    have hlt := hslot i hi
    rw [WORD_eq] at hfit ⊢
    omega
  unfold align_free Heap.poke
  rw [if_neg hok]
  simp only
  rw [hkeep]

theorem align_free_releases_raw_in_range_example :
    (align_free ((align_alloc (fun _ => 4096) Heap.empty 100 64).2.poke
          (align_alloc (fun _ => 4096) Heap.empty 100 64).1 [(0, 255), (99, 7)])
        (align_alloc (fun _ => 4096) Heap.empty 100 64).1).frees =
        Heap.empty.frees ++ [(fun _ : Nat => 4096) (total_size 100 64)] ∧
      ∀ h2 : Heap, (align_free h2 NULL).frees = h2.frees :=
  align_free_releases_raw_in_range (fun _ => 4096) Heap.empty 100 64 [(0, 255), (99, 7)]
    (by decide) (by decide) (by decide) (by decide) (by decide)

/-- C3 (evaluation at a failing input): `align_alloc(2 ^ 64 - 1, 1)` on `malloc` returning
4096 asks for 7 bytes and returns `a = 4104` with the back-pointer in `[4096, 4104)`. The
byte `buffer[2 ^ 64 - 8]` is one of the `size` bytes of the caller, and its machine address
`a + (2 ^ 64 - 8)` modulo `2 ^ 64` is 4096, the first byte of the back-pointer: after the
caller has stored 255 there, `align_free(a)` calls `free(4351)` and not `free(4096)`. -/
theorem align_free_after_wrapped_store :
    (align_alloc (fun _ => 4096) Heap.empty (2 ^ 64 - 1) 1).1 = 4104 ∧
      (align_alloc (fun _ => 4096) Heap.empty (2 ^ 64 - 1) 1).2.mallocs = [7] ∧
      2 ^ 64 - 8 < 2 ^ 64 - 1 ∧
      (4104 + (2 ^ 64 - 8)) % WORD = 4096 ∧
      sub64 4104 PTR_SIZE = 4096 ∧
      (align_free (align_alloc (fun _ => 4096) Heap.empty (2 ^ 64 - 1) 1).2 4104).frees =
        [4096] ∧
      (align_free ((align_alloc (fun _ => 4096) Heap.empty (2 ^ 64 - 1) 1).2.poke 4104
          [(2 ^ 64 - 8, 255)]) 4104).frees = [4351] := by
  decide

/-! ## Block-size policies -/

/-- C4: `get_io_blocksize(fd, page_size)` returns the block size `b` reported by a
successful `fstat` when `0 < b < 1048576` and `page_size` otherwise (so 0, -1 and 2 GiB
give `page_size` and 8192 gives 8192); when `fstat` fails it returns `page_size`. -/
theorem get_io_blocksize_policy (page_size b : Int) :
    get_io_blocksize (some b) page_size = (if 0 < b ∧ b < 1048576 then b else page_size) ∧
      get_io_blocksize none page_size = page_size ∧
      get_io_blocksize (some 0) page_size = page_size ∧
      get_io_blocksize (some (-1)) page_size = page_size ∧
      get_io_blocksize (some 2147483648) page_size = page_size ∧
      get_io_blocksize (some 8192) page_size = 8192 := by
  refine ⟨?_, rfl, ?_, ?_, ?_, ?_⟩
  · unfold get_io_blocksize
    simp only
    by_cases h0 : b ≤ 0
    · rw [if_pos h0, if_neg (by omega)]
    · rw [if_neg h0]
      by_cases h1 : b < 1048576
      · rw [if_pos ⟨by omega, by omega⟩, if_pos ⟨by omega, h1⟩]
      · rw [if_neg (by omega), if_neg (by omega)]
  all_goals simp [get_io_blocksize]

/-- C7 (evaluation at a failing input): for a page of 1 MiB `get_io_blocksize_task6` returns
its constant 524288, which is smaller than the page, whereas the rule of
`get_io_blocksize_task5`, the maximum of the constant and the page size, gives 1048576. -/
theorem get_io_blocksize_task6_not_clamped :
    get_io_blocksize_task6 1048576 = 524288 ∧
      max OPTIMAL_BUFFER_SIZE_mycat6 1048576 = 1048576 ∧
      get_io_blocksize_task6 1048576 ≠ max OPTIMAL_BUFFER_SIZE_mycat6 1048576 ∧
      get_io_blocksize_task5 1048576 = max OPTIMAL_BUFFER_SIZE_mycat5 1048576 := by
  decide

/-- The rule of `get_io_blocksize_task5` is the maximum of its constant and the page
size. -/
theorem get_io_blocksize_task5_eq_max (page_size : Int) :
    get_io_blocksize_task5 page_size = max OPTIMAL_BUFFER_SIZE_mycat5 page_size := by
  unfold get_io_blocksize_task5
  by_cases h : OPTIMAL_BUFFER_SIZE_mycat5 < page_size
  · rw [if_pos h]; omega
  · rw [if_neg h]; omega

/-- On pages no larger than its constant, `get_io_blocksize_task6` agrees with the
maximum of the constant and the page size. -/
theorem get_io_blocksize_task6_small_page (page_size : Int)
    (h : page_size ≤ OPTIMAL_BUFFER_SIZE_mycat6) :
    get_io_blocksize_task6 page_size = max OPTIMAL_BUFFER_SIZE_mycat6 page_size := by
  unfold get_io_blocksize_task6
  omega

/-! ## Byte loads and stores -/

theorem loadBytes_add (mem : Nat → Nat) (a m r : Nat) :
    loadBytes mem a (m + r) = loadBytes mem a m ++ loadBytes mem (a + m) r := by
  unfold loadBytes
  rw [List.range_add, List.map_append, List.map_map]
  congr 1
  apply List.map_congr_left
  intro i _
  simp only [Function.comp, Nat.add_assoc]

theorem loadBytes_zero (mem : Nat → Nat) (a : Nat) : loadBytes mem a 0 = [] := rfl

theorem loadBytes_length (mem : Nat → Nat) (a n : Nat) : (loadBytes mem a n).length = n := by
  unfold loadBytes
  rw [List.length_map, List.length_range]

/-- The bytes stored at `a` are the bytes loaded from `a`. -/
theorem loadBytes_storeBytes (mem : Nat → Nat) (a : Nat) (bs : List Nat) :
    loadBytes (storeBytes mem a bs) a bs.length = bs := by
  apply List.ext_getElem
  · exact loadBytes_length _ _ _
  · intro i h1 h2
    unfold loadBytes storeBytes
    rw [List.getElem_map, List.getElem_range]
    rw [if_pos ⟨by omega, by omega⟩]
    rw [show a + i - a = i by omega, List.getD_eq_getElem _ _ h2]

/-- Loading a part of the bytes stored at `a`. -/
theorem loadBytes_storeBytes_drop (mem : Nat → Nat) (a : Nat) (bs : List Nat) (t : Nat)
    (ht : t ≤ bs.length) :
    loadBytes (storeBytes mem a bs) (a + t) (bs.length - t) = bs.drop t := by
  have h := loadBytes_storeBytes mem a bs
  have hsplit : bs.length = t + (bs.length - t) := by omega
  rw [hsplit, loadBytes_add] at h
  have hlen : (loadBytes (storeBytes mem a bs) a t).length = t := loadBytes_length _ _ _
  have h2 := congrArg (List.drop t) h
  rw [List.drop_append_of_le_length (by omega), List.drop_of_length_le (by omega),
    List.nil_append] at h2
  exact h2

theorem run_add (v : Variant) (env : Env) (a b : Nat) (s : State) :
    run v env (a + b) s = run v env b (run v env a s) := by
  induction a generalizing s with
  | zero => simp [run]
  | succ a ih =>
    rw [Nat.succ_add]
    exact ih (step v env s)

theorem run_one (v : Variant) (env : Env) (s : State) : run v env 1 s = step v env s := rfl

/-! ## Steps of the copy loops -/

theorem toSizeT_of_nonneg {x : Int} (h0 : 0 ≤ x) (h1 : x < (WORD : Int)) : toSizeT x = x.toNat := by
  unfold toSizeT
  rw [Int.emod_eq_of_lt h0 h1]

theorem toSizeT_lt (x : Int) : toSizeT x < WORD := by
  unfold toSizeT
  have h1 : (0 : Int) < (WORD : Int) := by rw [WORD_eq]; decide
  have h2 := Int.emod_lt_of_pos x h1
  have h3 := Int.emod_nonneg x (ne_of_gt h1)
  omega

/-- The inner loop of mycat3.c .. mycat6.c when the sink takes `k` bytes. -/
theorem aligned_write_head_accept (env : Env) (s : State) (br tot : Int) (k : Nat)
    (hlt : tot < br) (hw : env.writes s.nwrite = .accept k) :
    aligned_write_head env s br tot =
      { s with
        pc := .write_head br (tot + ((min k (toSizeT (br - tot)) : Nat) : Int))
        nwrite := s.nwrite + 1
        out := s.out ++ loadBytes s.heap.mem (s.buffer + tot.toNat) (min k (toSizeT (br - tot))) } := by
  unfold aligned_write_head sys_write
  rw [if_pos hlt, hw]
  simp only
  rw [if_neg (by omega)]

/-- The inner loop of mycat3.c .. mycat6.c when the call is interrupted: only the call
counter changes. -/
theorem aligned_write_head_eintr (env : Env) (s : State) (br tot : Int)
    (hlt : tot < br) (hw : env.writes s.nwrite = .fail EINTR) :
    aligned_write_head env s br tot =
      { s with pc := .write_head br tot, nwrite := s.nwrite + 1 } := by
  unfold aligned_write_head sys_write
  rw [if_pos hlt, hw]
  simp only [if_true]

theorem aligned_write_head_done (env : Env) (s : State) (br tot : Int) (hge : ¬ tot < br) :
    aligned_write_head env s br tot = { s with pc := .loop_head } := by
  unfold aligned_write_head
  rw [if_neg hge]


/-- The inner loop of mycat2.c when the sink takes `k` bytes. -/
theorem mycat2_write_head_accept (env : Env) (s : State) (br tot : Int) (k : Nat)
    (hpc : s.pc = .write_head br tot) (hlt : tot < br) (hw : env.writes s.nwrite = .accept k) :
    mycat2_step env s =
      { s with
        pc := .write_head br (tot + ((min k (toSizeT (br - tot)) : Nat) : Int))
        nwrite := s.nwrite + 1
        out := s.out ++ loadBytes s.heap.mem (s.buffer + tot.toNat) (min k (toSizeT (br - tot))) } := by
  unfold mycat2_step sys_write
  rw [hpc]
  simp only
  rw [if_pos hlt, hw]
  simp only
  rw [if_neg (by omega)]

theorem mycat2_write_head_done (env : Env) (s : State) (br tot : Int)
    (hpc : s.pc = .write_head br tot) (hge : ¬ tot < br) :
    mycat2_step env s = { s with pc := .loop_head } := by
  unfold mycat2_step
  rw [hpc]
  simp only
  rw [if_neg hge]

/-- In every program but mycat1 a step at the inner loop test with nothing left to write
goes back to the outer loop test. -/
theorem step_write_head_done (v : Variant) (env : Env) (s : State) (br tot : Int)
    (hv : v ≠ .mycat1) (hpc : s.pc = .write_head br tot) (hge : ¬ tot < br) :
    step v env s = { s with pc := .loop_head } := by
  cases v with
  | mycat1 => exact absurd rfl hv
  | mycat2 => exact mycat2_write_head_done env s br tot hpc hge
  | mycat3 =>
    show mycat3_step env s = _
    unfold mycat3_step
    rw [hpc]
    exact aligned_write_head_done env s br tot hge
  | mycat4 =>
    show mycat4_step env s = _
    unfold mycat4_step
    rw [hpc]
    exact aligned_write_head_done env s br tot hge
  | mycat5 =>
    show mycat5_step env s = _
    unfold mycat5_step
    rw [hpc]
    exact aligned_write_head_done env s br tot hge
  | mycat6 =>
    show mycat6_step env s = _
    unfold mycat6_step
    rw [hpc]
    exact aligned_write_head_done env s br tot hge

/-- In every program but mycat1 a step at the inner loop test, when the sink takes `k`
bytes, appends the bytes taken to the output and advances `total_bytes_written`. -/
theorem step_write_head_accept (v : Variant) (env : Env) (s : State) (br tot : Int) (k : Nat)
    (hv : v ≠ .mycat1) (hpc : s.pc = .write_head br tot) (hlt : tot < br)
    (hw : env.writes s.nwrite = .accept k) :
    step v env s =
      { s with
        pc := .write_head br (tot + ((min k (toSizeT (br - tot)) : Nat) : Int))
        nwrite := s.nwrite + 1
        out := s.out ++ loadBytes s.heap.mem (s.buffer + tot.toNat) (min k (toSizeT (br - tot))) } := by
  cases v with
  | mycat1 => exact absurd rfl hv
  | mycat2 => exact mycat2_write_head_accept env s br tot k hpc hlt hw
  | mycat3 =>
    show mycat3_step env s = _
    unfold mycat3_step
    rw [hpc]
    exact aligned_write_head_accept env s br tot k hlt hw
  | mycat4 =>
    show mycat4_step env s = _
    unfold mycat4_step
    rw [hpc]
    exact aligned_write_head_accept env s br tot k hlt hw
  | mycat5 =>
    show mycat5_step env s = _
    unfold mycat5_step
    rw [hpc]
    exact aligned_write_head_accept env s br tot k hlt hw
  | mycat6 =>
    show mycat6_step env s = _
    unfold mycat6_step
    rw [hpc]
    exact aligned_write_head_accept env s br tot k hlt hw

/-- In mycat3 .. mycat6 a step at the inner loop test, when the call is interrupted,
changes nothing but the number of `write` calls made. -/
theorem step_write_head_eintr (v : Variant) (env : Env) (s : State) (br tot : Int)
    (hv : v.aligned = true) (hpc : s.pc = .write_head br tot) (hlt : tot < br)
    (hw : env.writes s.nwrite = .fail EINTR) :
    step v env s = { s with nwrite := s.nwrite + 1 } := by
  cases v with
  | mycat1 => exact absurd hv (by decide)
  | mycat2 => exact absurd hv (by decide)
  | mycat3 =>
    show mycat3_step env s = _
    unfold mycat3_step
    rw [hpc]
    simp only
    rw [aligned_write_head_eintr env s br tot hlt hw]
  | mycat4 =>
    show mycat4_step env s = _
    unfold mycat4_step
    rw [hpc]
    simp only
    rw [aligned_write_head_eintr env s br tot hlt hw]
  | mycat5 =>
    show mycat5_step env s = _
    unfold mycat5_step
    rw [hpc]
    simp only
    rw [aligned_write_head_eintr env s br tot hlt hw]
  | mycat6 =>
    show mycat6_step env s = _
    unfold mycat6_step
    rw [hpc]
    simp only
    rw [aligned_write_head_eintr env s br tot hlt hw]

/-- The inner loop terminates: from the inner loop test with the bytes `[tot, br)` of the
buffer still to be written, when every `write` call either takes at least one byte or (in
mycat3 .. mycat6) is interrupted, and no call from the `N`-th on is interrupted, the run
reaches the outer loop test with exactly those bytes appended to the output. -/
theorem inner_loop (v : Variant) (env : Env) (N : Nat) (hv : v ≠ .mycat1)
    (hall : ∀ i, GoodWrite env i ∨ (v.aligned = true ∧ Interrupted env i))
    (hfin : ∀ i, N ≤ i → GoodWrite env i) :
    ∀ (M : Nat) (s : State) (br tot : Int), s.pc = .write_head br tot → 0 ≤ tot → tot ≤ br →
      br < (WORD : Int) → (N - s.nwrite) + (br - tot).toNat ≤ M →
      ∃ n j, run v env n s =
        { s with
          pc := .loop_head
          nwrite := s.nwrite + j
          out := s.out ++ loadBytes s.heap.mem (s.buffer + tot.toNat) (br - tot).toNat } := by
  have hdone : ∀ (s : State) (br tot : Int), s.pc = .write_head br tot → tot ≤ br →
      ¬ tot < br →
      ∃ n j, run v env n s =
        { s with
          pc := .loop_head
          nwrite := s.nwrite + j
          out := s.out ++ loadBytes s.heap.mem (s.buffer + tot.toNat) (br - tot).toNat } := by
    intro s br tot hpc hle hlt
    refine ⟨1, 0, ?_⟩
    rw [run_one, step_write_head_done v env s br tot hv hpc hlt]
    have h0 : (br - tot).toNat = 0 := by omega
    rw [h0, loadBytes_zero, List.append_nil, Nat.add_zero]
  intro M
  induction M with
  | zero =>
    intro s br tot hpc h0 hle hbr hM
    exact hdone s br tot hpc hle (by omega)
  | succ M ih =>
    intro s br tot hpc h0 hle hbr hM
    by_cases hlt : tot < br
    · have hsz : toSizeT (br - tot) = (br - tot).toNat :=
        toSizeT_of_nonneg (by omega) (by omega)
      rcases hall s.nwrite with ⟨k, hk1, hw⟩ | ⟨hal, hw⟩
      · -- the sink takes `min k (br - tot)` bytes
        have hstep := step_write_head_accept v env s br tot k hv hpc hlt hw
        rw [hsz] at hstep
        obtain ⟨n, j, hrun⟩ := ih (step v env s) br (tot + ((min k (br - tot).toNat : Nat) : Int))
          (by rw [hstep]) (by omega) (by omega) hbr (by rw [hstep]; simp only; omega)
        refine ⟨1 + n, 1 + j, ?_⟩
        rw [run_add, run_one, hrun, hstep]
        simp only
        have hsplit : (br - tot).toNat =
            min k (br - tot).toNat + (br - (tot + ((min k (br - tot).toNat : Nat) : Int))).toNat := by
          omega
        have haddr : (tot + ((min k (br - tot).toNat : Nat) : Int)).toNat =
            tot.toNat + min k (br - tot).toNat := by omega
        rw [haddr, List.append_assoc, ← Nat.add_assoc s.buffer, ← loadBytes_add, ← hsplit,
          Nat.add_assoc s.nwrite]
      · -- the call is interrupted and retried
        have hstep := step_write_head_eintr v env s br tot hal hpc hlt hw
        have hN : s.nwrite < N := by
          by_contra hcon
          obtain ⟨k, _, hk⟩ := hfin s.nwrite (by omega)
          unfold Interrupted at hw
          rw [hw] at hk
          exact WriteEvent.noConfusion hk
        obtain ⟨n, j, hrun⟩ := ih (step v env s) br tot
          (by rw [hstep]; exact hpc) h0 hle hbr (by rw [hstep]; simp only; omega)
        refine ⟨1 + n, 1 + j, ?_⟩
        rw [run_add, run_one, hrun, hstep]
        simp only
        rw [Nat.add_assoc s.nwrite]
    · exact hdone s br tot hpc hle hlt

theorem close_and_return_pc (env : Env) (s : State) :
    (close_and_return env s).pc = .exited (if env.close_ret = -1 then 1 else 0) ∧
      (close_and_return env s).out = s.out ∧ (close_and_return env s).src = s.src ∧
      (close_and_return env s).align_frees = s.align_frees ∧
      (close_and_return env s).buffer = s.buffer ∧
      (close_and_return env s).heap = s.heap := by
  unfold close_and_return
  by_cases h : env.close_ret = -1
  · rw [if_pos h, if_pos h]
    exact ⟨rfl, rfl, rfl, rfl, rfl, rfl⟩
  · rw [if_neg h, if_neg h]
    exact ⟨rfl, rfl, rfl, rfl, rfl, rfl⟩

/-- A `read` call that does not fail moves `min r (min count remaining)` bytes. -/
theorem sys_read_ok (env : Env) (s : State) (count : Nat) (hr : 0 ≤ env.reads s.nread) :
    sys_read env s count =
      (((min (env.reads s.nread).toNat (min count s.src.length) : Nat) : Int),
        { s with
          nread := s.nread + 1
          src := s.src.drop (min (env.reads s.nread).toNat (min count s.src.length))
          heap := { s.heap with
            mem := storeBytes s.heap.mem s.buffer
              (s.src.take (min (env.reads s.nread).toNat (min count s.src.length))) } }) := by
  unfold sys_read
  simp only
  rw [if_neg (by omega)]

/-- A `read` call that fails returns `-1` and moves nothing. -/
theorem sys_read_fail (env : Env) (s : State) (count : Nat) (hr : env.reads s.nread < 0) :
    sys_read env s count = (-1, { s with nread := s.nread + 1 }) := by
  unfold sys_read
  simp only
  rw [if_pos hr]

/-- The outer loop test of mycat3.c .. mycat6.c when `read` delivers `n > 0` bytes. -/
theorem aligned_loop_head_data (env : Env) (s : State) (count : Nat)
    (hr : 0 ≤ env.reads s.nread)
    (hn : 0 < min (env.reads s.nread).toNat (min count s.src.length)) :
    aligned_loop_head env s count =
      { s with
        pc := .write_head ((min (env.reads s.nread).toNat (min count s.src.length) : Nat) : Int) 0
        nread := s.nread + 1
        src := s.src.drop (min (env.reads s.nread).toNat (min count s.src.length))
        heap := { s.heap with
          mem := storeBytes s.heap.mem s.buffer
            (s.src.take (min (env.reads s.nread).toNat (min count s.src.length))) } } := by
  unfold aligned_loop_head
  rw [sys_read_ok env s count hr]
  simp only
  rw [if_pos (by omega)]

/-- The outer loop test of mycat3.c .. mycat6.c at the end of the file. -/
theorem aligned_loop_head_eof (env : Env) (s : State) (count : Nat)
    (hr : 0 ≤ env.reads s.nread) (hsrc : s.src = []) :
    Finished env s (aligned_loop_head env s count) := by
  have hn : min (env.reads s.nread).toNat (min count s.src.length) = 0 := by
    rw [hsrc]
    simp
  unfold aligned_loop_head
  rw [sys_read_ok env s count hr]
  simp only
  rw [hn]
  rw [if_neg (by decide), if_neg (by decide)]
  obtain ⟨h1, h2, h3, _⟩ := close_and_return_pc env
    (call_align_free { s with
      nread := s.nread + 1
      src := s.src.drop 0
      heap := { s.heap with mem := storeBytes s.heap.mem s.buffer (s.src.take 0) } })
  refine ⟨h1, ?_, ?_⟩
  · rw [h2, hsrc]
    simp [call_align_free]
  · rw [h3, hsrc]
    simp [call_align_free]

/-- The outer loop test of mycat2.c when `read` delivers `n > 0` bytes. -/
theorem mycat2_loop_head_data (env : Env) (s : State) (hpc : s.pc = .loop_head)
    (hr : 0 ≤ env.reads s.nread)
    (hn : 0 < min (env.reads s.nread).toNat (min (toSizeT s.buffer_size) s.src.length)) :
    mycat2_step env s =
      { s with
        pc := .write_head
          ((min (env.reads s.nread).toNat (min (toSizeT s.buffer_size) s.src.length) : Nat) : Int) 0
        nread := s.nread + 1
        src := s.src.drop (min (env.reads s.nread).toNat (min (toSizeT s.buffer_size) s.src.length))
        heap := { s.heap with
          mem := storeBytes s.heap.mem s.buffer
            (s.src.take
              (min (env.reads s.nread).toNat (min (toSizeT s.buffer_size) s.src.length))) } } := by
  unfold mycat2_step
  rw [hpc]
  simp only
  rw [sys_read_ok env s _ hr]
  simp only
  rw [if_pos (by omega)]

/-- The outer loop test of mycat2.c at the end of the file. -/
theorem mycat2_loop_head_eof (env : Env) (s : State) (hpc : s.pc = .loop_head)
    (hr : 0 ≤ env.reads s.nread) (hsrc : s.src = []) :
    Finished env s (mycat2_step env s) := by
  have hn : min (env.reads s.nread).toNat (min (toSizeT s.buffer_size) s.src.length) = 0 := by
    rw [hsrc]
    simp
  unfold mycat2_step
  rw [hpc]
  simp only
  rw [sys_read_ok env s _ hr]
  simp only
  rw [hn]
  rw [if_neg (by decide), if_neg (by decide)]
  obtain ⟨h1, h2, h3, _⟩ := close_and_return_pc env
    (call_free { s with
      nread := s.nread + 1
      src := s.src.drop 0
      heap := { s.heap with mem := storeBytes s.heap.mem s.buffer (s.src.take 0) } })
  refine ⟨h1, ?_, ?_⟩
  · rw [h2, hsrc]
    simp [call_free]
  · rw [h3, hsrc]
    simp [call_free]

/-- In every program but mycat1 a step at the outer loop test, when `read` delivers
`n > 0` bytes, stores them in the buffer and enters the inner loop. -/
theorem step_loop_head_data (v : Variant) (env : Env) (s : State) (hv : v ≠ .mycat1)
    (hpc : s.pc = .loop_head) (hr : 0 ≤ env.reads s.nread)
    (hn : 0 < min (env.reads s.nread).toNat (min (read_count v s) s.src.length)) :
    step v env s =
      { s with
        pc := .write_head
          ((min (env.reads s.nread).toNat (min (read_count v s) s.src.length) : Nat) : Int) 0
        nread := s.nread + 1
        src := s.src.drop (min (env.reads s.nread).toNat (min (read_count v s) s.src.length))
        heap := { s.heap with
          mem := storeBytes s.heap.mem s.buffer
            (s.src.take (min (env.reads s.nread).toNat (min (read_count v s) s.src.length))) } } := by
  cases v with
  | mycat1 => exact absurd rfl hv
  | mycat2 => exact mycat2_loop_head_data env s hpc hr hn
  | mycat3 =>
    show mycat3_step env s = _
    unfold mycat3_step
    rw [hpc]
    exact aligned_loop_head_data env s _ hr hn
  | mycat4 =>
    show mycat4_step env s = _
    unfold mycat4_step
    rw [hpc]
    exact aligned_loop_head_data env s _ hr hn
  | mycat5 =>
    show mycat5_step env s = _
    unfold mycat5_step
    rw [hpc]
    exact aligned_loop_head_data env s _ hr hn
  | mycat6 =>
    show mycat6_step env s = _
    unfold mycat6_step
    rw [hpc]
    exact aligned_loop_head_data env s _ hr hn

/-- In every program but mycat1 a step at the outer loop test at the end of the file
ends the run. -/
theorem step_loop_head_eof (v : Variant) (env : Env) (s : State) (hv : v ≠ .mycat1)
    (hpc : s.pc = .loop_head) (hr : 0 ≤ env.reads s.nread) (hsrc : s.src = []) :
    Finished env s (step v env s) := by
  cases v with
  | mycat1 => exact absurd rfl hv
  | mycat2 => exact mycat2_loop_head_eof env s hpc hr hsrc
  | mycat3 =>
    show Finished env s (mycat3_step env s)
    unfold mycat3_step
    rw [hpc]
    exact aligned_loop_head_eof env s _ hr hsrc
  | mycat4 =>
    show Finished env s (mycat4_step env s)
    unfold mycat4_step
    rw [hpc]
    exact aligned_loop_head_eof env s _ hr hsrc
  | mycat5 =>
    show Finished env s (mycat5_step env s)
    unfold mycat5_step
    rw [hpc]
    exact aligned_loop_head_eof env s _ hr hsrc
  | mycat6 =>
    show Finished env s (mycat6_step env s)
    unfold mycat6_step
    rw [hpc]
    exact aligned_loop_head_eof env s _ hr hsrc

theorem read_count_lt (v : Variant) (s : State) : ((read_count v s : Nat) : Int) < (WORD : Int) := by
  have h : read_count v s < WORD := by
    cases v
    · show 1 < WORD
      rw [WORD_eq]
      decide
    all_goals exact toSizeT_lt _
  omega

/-- The copy loop of mycat2 .. mycat6 terminates with the whole remainder of the file
written: from the outer loop test, when every `read` call delivers at least one byte
while the file lasts, every `write` call takes at least one byte or (in mycat3 .. mycat6)
is interrupted, and no call from the `N`-th on is interrupted. -/
theorem copy_loop (v : Variant) (env : Env) (N : Nat) (hv : v ≠ .mycat1)
    (hreads : ∀ i, 1 ≤ env.reads i)
    (hall : ∀ i, GoodWrite env i ∨ (v.aligned = true ∧ Interrupted env i))
    (hfin : ∀ i, N ≤ i → GoodWrite env i) :
    ∀ (L : Nat) (s : State), s.pc = .loop_head → 1 ≤ read_count v s → s.src.length ≤ L →
      ∃ n, Finished env s (run v env n s) := by
  intro L
  induction L with
  | zero =>
    intro s hpc _ hL
    have hsrc : s.src = [] := List.length_eq_zero.mp (by omega)
    exact ⟨1, step_loop_head_eof v env s hv hpc (by have := hreads s.nread; omega) hsrc⟩
  | succ L ih =>
    intro s hpc hcount hL
    have hr := hreads s.nread
    by_cases hsrc : s.src = []
    · exact ⟨1, step_loop_head_eof v env s hv hpc (by omega) hsrc⟩
    · have hlen : 0 < s.src.length := List.length_pos.mpr hsrc
      have hn : 0 < min (env.reads s.nread).toNat (min (read_count v s) s.src.length) := by
        omega
      have hstep := step_loop_head_data v env s hv hpc (by omega) hn
      have hclt := read_count_lt v s
      generalize hm : min (env.reads s.nread).toNat (min (read_count v s) s.src.length) = m
        at hn hstep
      have hmlen : m ≤ s.src.length := by omega
      obtain ⟨n1, j, hrun1⟩ := inner_loop v env N hv hall hfin
        ((N - (step v env s).nwrite) + (((m : Nat) : Int) - 0).toNat) (step v env s) (m : Int) 0
        (by rw [hstep]) (le_refl _) (by omega) (by omega) (le_refl _)
      rw [hstep] at hrun1
      simp only at hrun1
      have htake : (s.src.take m).length = m := by
        rw [List.length_take]
        omega
      have hload : loadBytes (storeBytes s.heap.mem s.buffer (s.src.take m))
          (s.buffer + (0 : Int).toNat) (((m : Nat) : Int) - 0).toNat = s.src.take m := by
        have h1 : (((m : Nat) : Int) - 0).toNat = (s.src.take m).length := by omega
        rw [h1]
        exact loadBytes_storeBytes _ _ _
      rw [hload] at hrun1
      obtain ⟨n2, hfinal⟩ := ih (run v env n1 (step v env s)) (by rw [hstep, hrun1])
        (by
          rw [hstep, hrun1]
          cases v <;> exact hcount)
        (by
          rw [hstep, hrun1]
          simp only [List.length_drop]
          omega)
      refine ⟨1 + n1 + n2, ?_⟩
      rw [run_add, run_add, run_one]
      obtain ⟨hp, ho, hs⟩ := hfinal
      refine ⟨hp, ?_, hs⟩
      rw [ho, hstep, hrun1]
      simp only
      rw [List.append_assoc, List.take_append_drop]

/-- One turn of the loop of mycat1.c: one byte is read and written. -/
theorem mycat1_step_data (env : Env) (s : State) (k : Nat) (hpc : s.pc = .loop_head)
    (hr : 1 ≤ env.reads s.nread) (hsrc : s.src ≠ []) (hk : 1 ≤ k)
    (hw : env.writes s.nwrite = .accept k) :
    mycat1_step env s =
      { s with
        nread := s.nread + 1
        nwrite := s.nwrite + 1
        src := s.src.drop 1
        out := s.out ++ s.src.take 1
        heap := { s.heap with mem := storeBytes s.heap.mem s.buffer (s.src.take 1) } } := by
  have hlen : 0 < s.src.length := List.length_pos.mpr hsrc
  have hn : min (env.reads s.nread).toNat (min 1 s.src.length) = 1 := by omega
  have hsz : toSizeT ((1 : Nat) : Int) = 1 := by decide
  have htake : (s.src.take 1).length = 1 := by
    rw [List.length_take]
    omega
  have hload : loadBytes (storeBytes s.heap.mem s.buffer (s.src.take 1)) s.buffer 1 =
      s.src.take 1 := by
    have h := loadBytes_storeBytes s.heap.mem s.buffer (s.src.take 1)
    rw [htake] at h
    exact h
  unfold mycat1_step
  rw [hpc]
  simp only
  rw [sys_read_ok env s 1 (by omega), hn]
  simp only
  rw [if_pos (by decide)]
  unfold sys_write
  simp only
  rw [hw]
  simp only
  rw [hsz, Nat.min_eq_right hk, if_neg (by decide), if_neg (by decide), hload, ← hpc]

/-- The loop of mycat1.c at the end of the file. -/
theorem mycat1_step_eof (env : Env) (s : State) (hpc : s.pc = .loop_head)
    (hr : 0 ≤ env.reads s.nread) (hsrc : s.src = []) :
    Finished env s (mycat1_step env s) := by
  have hn : min (env.reads s.nread).toNat (min 1 s.src.length) = 0 := by
    rw [hsrc]
    simp
  unfold mycat1_step
  rw [hpc]
  simp only
  rw [sys_read_ok env s 1 hr, hn]
  simp only
  rw [if_neg (by decide), if_neg (by decide)]
  obtain ⟨h1, h2, h3, _⟩ := close_and_return_pc env
    { s with
      nread := s.nread + 1
      src := s.src.drop 0
      heap := { s.heap with mem := storeBytes s.heap.mem s.buffer (s.src.take 0) } }
  refine ⟨h1, ?_, ?_⟩
  · rw [h2, hsrc]
    simp
  · rw [h3, hsrc]
    simp

/-- The copy loop of mycat1 terminates with the whole remainder of the file written. -/
theorem mycat1_loop (env : Env) (hreads : ∀ i, 1 ≤ env.reads i)
    (hwrites : ∀ i, GoodWrite env i) :
    ∀ (L : Nat) (s : State), s.pc = .loop_head → s.src.length ≤ L →
      ∃ n, Finished env s (run .mycat1 env n s) := by
  intro L
  induction L with
  | zero =>
    intro s hpc hL
    have hsrc : s.src = [] := List.length_eq_zero.mp (by omega)
    exact ⟨1, mycat1_step_eof env s hpc (by have := hreads s.nread; omega) hsrc⟩
  | succ L ih =>
    intro s hpc hL
    have hr := hreads s.nread
    by_cases hsrc : s.src = []
    · exact ⟨1, mycat1_step_eof env s hpc (by omega) hsrc⟩
    · have hlen : 0 < s.src.length := List.length_pos.mpr hsrc
      obtain ⟨k, hk, hw⟩ := hwrites s.nwrite
      have hstep : step .mycat1 env s = _ := mycat1_step_data env s k hpc hr hsrc hk hw
      obtain ⟨n, hp, ho, hs⟩ := ih (step .mycat1 env s) (by rw [hstep]; exact hpc)
        (by
          rw [hstep]
          simp only [List.length_drop]
          omega)
      refine ⟨1 + n, ?_⟩
      rw [run_add, run_one]
      refine ⟨hp, ?_, hs⟩
      rw [ho, hstep]
      simp only
      rw [List.append_assoc, List.take_append_drop]

/-- C5: in each of the six programs, from the test of the copy loop, for every remaining
source (the empty one included), every buffer size of at least one byte, every read
schedule that delivers at least one byte per call while the source lasts and then 0, and
every sink that takes at least one of the offered bytes per call and never fails, the run
ends through the normal exit (code 0, or 1 when the final `close` fails) and the sink has
received exactly the source. -/
theorem copy_loop_correct (v : Variant) (env : Env) (s : State) (hpc : s.pc = .loop_head)
    (hcount : 1 ≤ read_count v s) (hreads : ∀ i, 1 ≤ env.reads i)
    (hwrites : ∀ i, ∃ k, 1 ≤ k ∧ env.writes i = .accept k) :
    ∃ n, (run v env n s).pc = .exited (if env.close_ret = -1 then 1 else 0) ∧
      (run v env n s).out = s.out ++ s.src ∧ (run v env n s).src = [] := by
  by_cases hv : v = .mycat1
  · subst hv
    exact mycat1_loop env hreads hwrites s.src.length s hpc (le_refl _)
  · exact copy_loop v env 0 hv hreads (fun i => Or.inl (hwrites i)) (fun i _ => hwrites i)
      s.src.length s hpc hcount (le_refl _)

theorem copy_loop_correct_witness :
    (sampleLoopState.pc = .loop_head ∧ 1 ≤ read_count .mycat3 sampleLoopState ∧
        (∀ i, 1 ≤ sampleEnv.reads i) ∧ (∀ i, ∃ k, 1 ≤ k ∧ sampleEnv.writes i = .accept k)) ∧
      ∃ n, (run .mycat3 sampleEnv n sampleLoopState).pc =
          .exited (if sampleEnv.close_ret = -1 then 1 else 0) ∧
        (run .mycat3 sampleEnv n sampleLoopState).out =
          sampleLoopState.out ++ sampleLoopState.src ∧
        (run .mycat3 sampleEnv n sampleLoopState).src = [] :=
  ⟨⟨rfl, by decide, fun _ => (by decide : (1 : Int) ≤ 3), fun _ => ⟨2, by decide, rfl⟩⟩,
    copy_loop_correct .mycat3 sampleEnv sampleLoopState rfl (by decide) (fun _ => (by decide : (1 : Int) ≤ 3))
      (fun _ => ⟨2, by decide, rfl⟩)⟩

/-- C6: in mycat3 .. mycat6 a `write` call that fails with `EINTR` changes nothing but the
number of calls made (`total_bytes_written`, the buffer and the output are as before, so the
next call offers the same unwritten tail); hence, for every source and every sink whose
calls each take at least one byte or are interrupted, with no interruption from the `N`-th
call on, the run still ends through the normal exit with the sink having received exactly
the source, as without interruptions. -/
theorem interrupted_write_retried (v : Variant) (env : Env) (s : State) (N : Nat)
    (hv : v.aligned = true) (hpc : s.pc = .loop_head) (hcount : 1 ≤ read_count v s)
    (hreads : ∀ i, 1 ≤ env.reads i)
    (hwrites : ∀ i, (∃ k, 1 ≤ k ∧ env.writes i = .accept k) ∨ env.writes i = .fail EINTR)
    (hfin : ∀ i, N ≤ i → ∃ k, 1 ≤ k ∧ env.writes i = .accept k) :
    (∀ (t : State) (br tot : Int), t.pc = .write_head br tot → tot < br →
        env.writes t.nwrite = .fail EINTR →
        step v env t = { t with nwrite := t.nwrite + 1 }) ∧
      ∃ n, (run v env n s).pc = .exited (if env.close_ret = -1 then 1 else 0) ∧
        (run v env n s).out = s.out ++ s.src ∧ (run v env n s).src = [] := by
  have hne : v ≠ .mycat1 := by
    intro h
    rw [h] at hv
    exact absurd hv (by decide)
  refine ⟨fun t br tot htpc hlt hw => step_write_head_eintr v env t br tot hv htpc hlt hw, ?_⟩
  exact copy_loop v env N hne hreads
    (fun i => (hwrites i).elim Or.inl (fun h => Or.inr ⟨hv, h⟩)) hfin
    s.src.length s hpc hcount (le_refl _)

theorem interrupted_write_retried_witness :
    (Variant.mycat3.aligned = true ∧ sampleLoopState.pc = .loop_head ∧
        1 ≤ read_count .mycat3 sampleLoopState ∧ (∀ i, 1 ≤ interruptedEnv.reads i) ∧
        (∀ i, (∃ k, 1 ≤ k ∧ interruptedEnv.writes i = .accept k) ∨
          interruptedEnv.writes i = .fail EINTR) ∧
        (∀ i, 2 ≤ i → ∃ k, 1 ≤ k ∧ interruptedEnv.writes i = .accept k)) ∧
      ((∀ (t : State) (br tot : Int), t.pc = .write_head br tot → tot < br →
          interruptedEnv.writes t.nwrite = .fail EINTR →
          step .mycat3 interruptedEnv t = { t with nwrite := t.nwrite + 1 }) ∧
        ∃ n, (run .mycat3 interruptedEnv n sampleLoopState).pc =
            .exited (if interruptedEnv.close_ret = -1 then 1 else 0) ∧
          (run .mycat3 interruptedEnv n sampleLoopState).out =
            sampleLoopState.out ++ sampleLoopState.src ∧
          (run .mycat3 interruptedEnv n sampleLoopState).src = []) :=
  have hw : ∀ i, (∃ k, 1 ≤ k ∧ interruptedEnv.writes i = .accept k) ∨
      interruptedEnv.writes i = .fail EINTR := fun i => by
    by_cases h : i < 2
    · exact Or.inr (if_pos h)
    · exact Or.inl ⟨2, by decide, if_neg h⟩
  have hf : ∀ i, 2 ≤ i → ∃ k, 1 ≤ k ∧ interruptedEnv.writes i = .accept k := fun i hi =>
    ⟨2, by decide, if_neg (by omega)⟩
  ⟨⟨rfl, rfl, by decide, fun _ => (by decide : (1 : Int) ≤ 3), hw, hf⟩,
    interrupted_write_retried .mycat3 interruptedEnv sampleLoopState 2 rfl rfl (by decide)
      (fun _ => (by decide : (1 : Int) ≤ 3)) hw hf⟩


/-! ## Release of the aligned buffer -/

/-- The function `align_alloc` never calls `free`. -/
theorem align_alloc_frees (malloc : Nat → Nat) (h : Heap) (size alignment : Nat) :
    (align_alloc malloc h size alignment).2.frees = h.frees := by
  by_cases hg : alignment = 0 ∨ (alignment &&& sub64 alignment 1) ≠ 0
  · have e : align_alloc malloc h size alignment = (NULL, h) := by
      unfold align_alloc
      rw [if_pos hg]
    rw [e]
  · by_cases hs : size = 0
    · have e : align_alloc malloc h size alignment = (NULL, h) := by
        unfold align_alloc
        rw [if_neg hg, if_pos hs]
      rw [e]
    · rewrite [align_alloc_valid malloc h size alignment hg hs]
      by_cases hm : malloc (total_size size alignment) = NULL
      · rewrite [if_pos hm]
        exact snd_frees _ _ _ _
      · rewrite [if_neg hm]
        exact snd_frees _ _ _ _

theorem freeInv_exit_null (s : State) (c : Int) (hb : s.buffer = NULL)
    (hf : s.align_frees = []) (hh : s.heap.frees = []) : FreeInv (exit_with (call_close s) c) :=
  Or.inl ⟨hb, hf, hh⟩

theorem freeInv_exit_early (s : State) (c : Int) (hb : s.buffer = NULL)
    (hf : s.align_frees = []) (hh : s.heap.frees = []) : FreeInv (exit_with s c) :=
  Or.inl ⟨hb, hf, hh⟩

/-- Leaving through `align_free(buffer); close(fd); return c;` from a state without earlier
calls. -/
theorem freeInv_exit_free (s : State) (c : Int) (hb : s.buffer ≠ NULL)
    (hf : s.align_frees = []) (hh : s.heap.frees = []) :
    FreeInv (exit_with (call_close (call_align_free s)) c) := by
  refine Or.inr ⟨hb, ?_, ?_⟩
  · show s.align_frees ++ [s.buffer] = [s.buffer]
    rw [hf]
    rfl
  · show (align_free s.heap s.buffer).frees.length = 1
    unfold align_free
    rw [if_neg hb]
    simp only
    rw [hh]
    rfl

theorem freeInv_close_and_return (env : Env) (s : State) (hb : s.buffer ≠ NULL)
    (hf : s.align_frees = []) (hh : s.heap.frees = []) :
    FreeInv (close_and_return env (call_align_free s)) := by
  unfold close_and_return
  split_ifs
  · exact freeInv_exit_free s 1 hb hf hh
  · exact freeInv_exit_free s 0 hb hf hh

theorem freeInv_alloc_buffer (env : Env) (s : State) (size alignment : Nat)
    (hf : s.align_frees = []) (hh : s.heap.frees = []) :
    FreeInv (alloc_buffer env s size alignment) := by
  unfold alloc_buffer
  simp only
  by_cases hb : (align_alloc env.malloc s.heap size alignment).1 = NULL
  · rw [if_pos hb]
    exact freeInv_exit_null _ 1 hb hf
      (by rw [← hh]; exact align_alloc_frees env.malloc s.heap size alignment)
  · rw [if_neg hb]
    exact ⟨hb, hf, by rw [← hh]; exact align_alloc_frees env.malloc s.heap size alignment⟩

theorem freeInv_aligned_loop_head (env : Env) (s : State) (count : Nat)
    (hb : s.buffer ≠ NULL) (hf : s.align_frees = []) (hh : s.heap.frees = []) :
    FreeInv (aligned_loop_head env s count) := by
  unfold aligned_loop_head
  by_cases hr : env.reads s.nread < 0
  · rw [sys_read_fail env s count hr]
    simp only
    split_ifs
    all_goals first
      | exact freeInv_exit_free _ 1 hb hf hh
      | exact freeInv_close_and_return env _ hb hf hh
      | exact ⟨hb, hf, hh⟩
  · rw [sys_read_ok env s count (by omega)]
    simp only
    split_ifs
    all_goals first
      | exact freeInv_exit_free _ 1 hb hf hh
      | exact freeInv_close_and_return env _ hb hf hh
      | exact ⟨hb, hf, hh⟩

theorem freeInv_aligned_write_head (env : Env) (s : State) (br tot : Int)
    (hb : s.buffer ≠ NULL) (hf : s.align_frees = []) (hh : s.heap.frees = []) :
    FreeInv (aligned_write_head env s br tot) := by
  unfold aligned_write_head sys_write
  split_ifs with h1
  · cases hw : env.writes s.nwrite with
    | accept k =>
      simp only
      split_ifs
      all_goals first
        | exact freeInv_exit_free _ 1 hb hf hh
        | exact ⟨hb, hf, hh⟩
    | fail e =>
      simp only
      split_ifs
      all_goals first
        | exact freeInv_exit_free _ 1 hb hf hh
        | exact ⟨hb, hf, hh⟩
  · exact ⟨hb, hf, hh⟩

/-- Read failure in mycat3 .. mycat6: `align_free(buffer); close(fd); return 1;`. -/
theorem aligned_loop_head_read_failure (env : Env) (s : State) (count : Nat)
    (hr : env.reads s.nread < 0) :
    aligned_loop_head env s count =
      exit_with (call_close (call_align_free { s with nread := s.nread + 1 })) 1 := by
  unfold aligned_loop_head
  rw [sys_read_fail env s count hr]
  simp only [if_true]
  rw [if_neg (by decide)]

/-- Fatal write failure in mycat3 .. mycat6: `align_free(buffer); close(fd); return 1;`. -/
theorem aligned_write_head_fatal (env : Env) (s : State) (br tot e : Int) (hlt : tot < br)
    (hw : env.writes s.nwrite = .fail e) (he : e ≠ EINTR) :
    aligned_write_head env s br tot =
      exit_with (call_close (call_align_free { s with nwrite := s.nwrite + 1 })) 1 := by
  unfold aligned_write_head sys_write
  rw [if_pos hlt, hw]
  simp only [if_true]
  rw [if_neg he]

/-- Normal completion in mycat3 .. mycat6: `align_free(buffer)` and then the final
`close`. -/
theorem aligned_loop_head_completion (env : Env) (s : State) (count : Nat)
    (hr : 0 ≤ env.reads s.nread) (hsrc : s.src = []) :
    aligned_loop_head env s count =
      close_and_return env (call_align_free
        { s with
          nread := s.nread + 1
          src := s.src.drop 0
          heap := { s.heap with mem := storeBytes s.heap.mem s.buffer (s.src.take 0) } }) := by
  have hn : min (env.reads s.nread).toNat (min count s.src.length) = 0 := by
    rw [hsrc]
    simp
  unfold aligned_loop_head
  rw [sys_read_ok env s count hr]
  simp only
  rw [hn]
  rw [if_neg (by decide), if_neg (by decide)]

theorem freeInv_entry {s : State} (hpc : s.pc = .entry) (h : FreeInv s) :
    s.buffer = NULL ∧ s.align_frees = [] ∧ s.heap.frees = [] := by
  unfold FreeInv at h
  rw [hpc] at h
  exact h

theorem freeInv_loop_head {s : State} (hpc : s.pc = .loop_head) (h : FreeInv s) :
    s.buffer ≠ NULL ∧ s.align_frees = [] ∧ s.heap.frees = [] := by
  unfold FreeInv at h
  rw [hpc] at h
  exact h

theorem freeInv_write_head {s : State} {br tot : Int} (hpc : s.pc = .write_head br tot)
    (h : FreeInv s) : s.buffer ≠ NULL ∧ s.align_frees = [] ∧ s.heap.frees = [] := by
  unfold FreeInv at h
  rw [hpc] at h
  exact h

/-- Every step of mycat3 .. mycat6 keeps the bookkeeping of `align_free`. -/
theorem freeInv_step (v : Variant) (env : Env) (s : State) (hv : v.aligned = true)
    (h : FreeInv s) : FreeInv (step v env s) := by
  cases v with
  | mycat1 => exact absurd hv (by decide)
  | mycat2 => exact absurd hv (by decide)
  | mycat3 =>
    show FreeInv (mycat3_step env s)
    unfold mycat3_step
    cases hpc : s.pc with
    | entry =>
      obtain ⟨hb, hf, hh⟩ := freeInv_entry hpc h
      simp only
      split_ifs
      · exact freeInv_exit_early s 1 hb hf hh
      · exact freeInv_exit_early s 1 hb hf hh
      · exact freeInv_exit_null _ 1 hb hf hh
      · exact freeInv_alloc_buffer env _ _ _ hf hh
    | loop_head =>
      obtain ⟨hb, hf, hh⟩ := freeInv_loop_head hpc h
      exact freeInv_aligned_loop_head env s _ hb hf hh
    | write_head br tot =>
      obtain ⟨hb, hf, hh⟩ := freeInv_write_head hpc h
      exact freeInv_aligned_write_head env s br tot hb hf hh
    | exited c => exact h
  | mycat4 =>
    show FreeInv (mycat4_step env s)
    unfold mycat4_step
    cases hpc : s.pc with
    | entry =>
      obtain ⟨hb, hf, hh⟩ := freeInv_entry hpc h
      simp only
      split_ifs
      · exact freeInv_exit_early s 1 hb hf hh
      · exact freeInv_exit_early s 1 hb hf hh
      · exact freeInv_alloc_buffer env _ _ _ hf hh
    | loop_head =>
      obtain ⟨hb, hf, hh⟩ := freeInv_loop_head hpc h
      exact freeInv_aligned_loop_head env s _ hb hf hh
    | write_head br tot =>
      obtain ⟨hb, hf, hh⟩ := freeInv_write_head hpc h
      exact freeInv_aligned_write_head env s br tot hb hf hh
    | exited c => exact h
  | mycat5 =>
    show FreeInv (mycat5_step env s)
    unfold mycat5_step
    cases hpc : s.pc with
    | entry =>
      obtain ⟨hb, hf, hh⟩ := freeInv_entry hpc h
      simp only
      split_ifs
      · exact freeInv_exit_early s 1 hb hf hh
      · exact freeInv_exit_early s 1 hb hf hh
      · exact freeInv_alloc_buffer env _ _ _ hf hh
    | loop_head =>
      obtain ⟨hb, hf, hh⟩ := freeInv_loop_head hpc h
      exact freeInv_aligned_loop_head env s _ hb hf hh
    | write_head br tot =>
      obtain ⟨hb, hf, hh⟩ := freeInv_write_head hpc h
      exact freeInv_aligned_write_head env s br tot hb hf hh
    | exited c => exact h
  | mycat6 =>
    show FreeInv (mycat6_step env s)
    unfold mycat6_step
    cases hpc : s.pc with
    | entry =>
      obtain ⟨hb, hf, hh⟩ := freeInv_entry hpc h
      simp only
      split_ifs
      all_goals first
        | exact freeInv_exit_early s 1 hb hf hh
        | exact freeInv_alloc_buffer env _ _ _ hf hh
    | loop_head =>
      obtain ⟨hb, hf, hh⟩ := freeInv_loop_head hpc h
      exact freeInv_aligned_loop_head env s _ hb hf hh
    | write_head br tot =>
      obtain ⟨hb, hf, hh⟩ := freeInv_write_head hpc h
      exact freeInv_aligned_write_head env s br tot hb hf hh
    | exited c => exact h

theorem freeInv_run (v : Variant) (env : Env) (hv : v.aligned = true) :
    ∀ (n : Nat) (s : State), FreeInv s → FreeInv (run v env n s) := by
  intro n
  induction n with
  | zero => exact fun s h => h
  | succ n ih => exact fun s h => ih (step v env s) (freeInv_step v env s hv h)

theorem freeInv_init (env : Env) : FreeInv (init env) := ⟨rfl, rfl, rfl⟩

/-- C8: in mycat3 .. mycat6, at every point of every run of `main` that has passed a
successful `align_alloc` (the buffer is not `NULL`): once `main` has returned, through
normal completion, a failed `read` or a fatal `write`, `align_free` has been called exactly
once, on the buffer (and `free` exactly once); as long as `main` has not returned it has not
been called. The three returns are `aligned_loop_head_completion`,
`aligned_loop_head_read_failure` and `aligned_write_head_fatal`. -/
theorem align_free_exactly_once (v : Variant) (env : Env) (n : Nat) (hv : v.aligned = true)
    (hb : (run v env n (init env)).buffer ≠ NULL) :
    (∀ c, (run v env n (init env)).pc = .exited c →
        (run v env n (init env)).align_frees = [(run v env n (init env)).buffer] ∧
          (run v env n (init env)).heap.frees.length = 1) ∧
      ((∀ c, (run v env n (init env)).pc ≠ .exited c) →
        (run v env n (init env)).align_frees = [] ∧
          (run v env n (init env)).heap.frees = []) := by
  have h := freeInv_run v env hv n (init env) (freeInv_init env)
  generalize run v env n (init env) = t at h hb
  unfold FreeInv at h
  constructor
  · intro c hc
    rw [hc] at h
    rcases h with ⟨h1, _⟩ | ⟨_, h2, h3⟩
    · exact absurd h1 hb
    · exact ⟨h2, h3⟩
  · intro hne
    cases hpc : t.pc with
    | entry =>
      rw [hpc] at h
      exact absurd h.1 hb
    | loop_head =>
      rw [hpc] at h
      exact h.2
    | write_head br tot =>
      rw [hpc] at h
      exact h.2
    | exited c => exact absurd hpc (hne c)

theorem align_free_exactly_once_witness :
    (Variant.mycat4.aligned = true ∧
        (run .mycat4 brokenPipeEnv 4 (init brokenPipeEnv)).buffer ≠ NULL) ∧
      ((∀ c, (run .mycat4 brokenPipeEnv 4 (init brokenPipeEnv)).pc = .exited c →
          (run .mycat4 brokenPipeEnv 4 (init brokenPipeEnv)).align_frees =
              [(run .mycat4 brokenPipeEnv 4 (init brokenPipeEnv)).buffer] ∧
            (run .mycat4 brokenPipeEnv 4 (init brokenPipeEnv)).heap.frees.length = 1) ∧
        ((∀ c, (run .mycat4 brokenPipeEnv 4 (init brokenPipeEnv)).pc ≠ .exited c) →
          (run .mycat4 brokenPipeEnv 4 (init brokenPipeEnv)).align_frees = [] ∧
            (run .mycat4 brokenPipeEnv 4 (init brokenPipeEnv)).heap.frees = [])) :=
  ⟨⟨rfl, by decide⟩,
    align_free_exactly_once .mycat4 brokenPipeEnv 4 rfl (by decide)⟩

end Meowhw
